import Mathlib

/-!
# Verification of the `sound` phonology library

A shallow embedding, in Lean 4, of the core of the `sound` Rust crate:
the feature-geometry data model (`features.rs`, `phoneme.rs`), the
natural-class classifiers (`feature_classes.rs`), the feature-set
flattener (`feature_set.rs`), the similarity measure (`rhyme/approx.rs`)
and the word parser (`builders/words.rs`, `word.rs`, `syllable.rs`,
`stress.rs`).

Modelling conventions:
* Rust `String` values (symbols, lookup keys, word descriptions, error
  messages) are modelled as `List Char`, scanned exactly as the Rust
  code scans `str::chars()`.
* `HashSet<Feature>` is modelled as `Finset Feature`; the sequence of
  `insert` calls in `segment_feature_set` is modelled as the list of
  inserted tokens (in source order) converted to a `Finset`.
* `f64` appears only in `similarity`, as a division of two exact set
  cardinalities.  The result is modelled in `Option ℚ`: `some q` for an
  ordinary (exactly rounded) quotient and `none` for the IEEE NaN that
  `0.0 / 0.0` produces.  A positive numerator over a zero denominator
  would be `+inf`, but it is unreachable here because the numerator
  (an intersection cardinality) never exceeds the denominator (the
  matching union cardinality).
* `Result<T, WordConstructorError>` is modelled as
  `Except WordConstructorError T`.
-/

namespace Sound

/-- A binary distinctive feature contrasts positively or negatively
(`features.rs`, `BinaryFeature`). -/
inductive BinaryFeature where
  | Marked
  | Unmarked
deriving DecidableEq, Repr

/-- A unary feature is meaningful only when marked
(`features.rs`, `UnaryFeature`). -/
inductive UnaryFeature where
  | Marked
deriving DecidableEq, Repr

/-- Features from behavior involving the lips (`features.rs`, `LabialFeature`). -/
structure LabialFeature where
  round : Option UnaryFeature
deriving DecidableEq, Repr

/-- Features from the front of the tongue (`features.rs`, `CoronalFeature`). -/
structure CoronalFeature where
  anterior : Option BinaryFeature
  distrib : Option BinaryFeature
deriving DecidableEq, Repr

/-- Features from the body of the tongue (`features.rs`, `DorsalFeature`). -/
structure DorsalFeature where
  high : Option BinaryFeature
  low : Option BinaryFeature
  back : Option BinaryFeature
deriving DecidableEq, Repr

/-- Features from the root of the tongue (`features.rs`, `PharyngealFeature`). -/
structure PharyngealFeature where
  advanced_tongue_root : Option BinaryFeature
deriving DecidableEq, Repr

/-- Features from the vocal folds (`features.rs`, `LaryngealFeatures`). -/
structure LaryngealFeatures where
  spread_glottis : Option UnaryFeature
  constricted_glottis : Option UnaryFeature
  voice : Option BinaryFeature
deriving DecidableEq, Repr

/-- Place of articulation within the mouth (`features.rs`, `Place`). -/
structure Place where
  labial : Option LabialFeature
  coronal : Option CoronalFeature
  dorsal : Option DorsalFeature
  pharyngeal : Option PharyngealFeature
deriving DecidableEq, Repr

/-- Autosegmental features of a segment (`features.rs`, `AutosegmentalFeatures`). -/
structure AutosegmentalFeatures where
  nasal : Option UnaryFeature
  lateral : Option UnaryFeature
  rhotic : Option UnaryFeature
  strident : Option BinaryFeature
  continuant : Option BinaryFeature
  place : Option Place
  laryngeal : Option LaryngealFeatures
deriving DecidableEq, Repr

/-- Root features bound to every segment (`features.rs`, `RootFeatures`). -/
structure RootFeatures where
  consonantal : BinaryFeature
  sonorant : BinaryFeature
  syllabic : BinaryFeature
deriving DecidableEq, Repr

/-- A segment is a structured collection of phonological features
(`features.rs`, `Segment`). -/
structure Segment where
  root_features : RootFeatures
  autosegmental_features : AutosegmentalFeatures
  symbol : Char
deriving DecidableEq, Repr

/-- A phoneme is a unit of speech sound: one segment, or an ordered
pair of segments behaving as one unit (`phoneme.rs`, `Phoneme`). -/
inductive Phoneme where
  | Monosegment (s : Segment)
  | Disegment (s1 : Segment) (s2 : Segment)
deriving DecidableEq, Repr

/-- The combining tie-bar U+0361 joining the two symbols of a disegment. -/
def tieBar : Char := '͡'

/-- The combining rhotic right-hook U+02DE. -/
def rhoticHook : Char := '˞'

/-- `Phoneme::symbol` (`phoneme.rs`): the symbol of a monosegment, or
the two disegment symbols joined by the tie-bar. -/
def Phoneme.symbol : Phoneme → List Char
  | .Monosegment s => [s.symbol]
  | .Disegment s1 s2 => [s1.symbol, tieBar, s2.symbol]

/-! ## Natural-class classifiers (`feature_classes.rs`) -/

/-- `map_or` on `Option`, as used pervasively in `feature_classes.rs`. -/
def map_or (o : Option α) (d : β) (f : α → β) : β :=
  match o with
  | none => d
  | some x => f x

/-- `any_segment` (`feature_classes.rs`): a segment-level test holds of a
phoneme when it holds of any constituent segment. -/
def any_segment (p : Phoneme) (f : Segment → Bool) : Bool :=
  match p with
  | .Monosegment seg => f seg
  | .Disegment seg1 seg2 => f seg1 || f seg2

/-- `is_vowel`: some segment is +syllabic. -/
def is_vowel (p : Phoneme) : Bool :=
  any_segment p (fun seg => seg.root_features.syllabic == BinaryFeature.Marked)

/-- `is_consonant`: not a vowel. -/
def is_consonant (p : Phoneme) : Bool :=
  !is_vowel p

/-- `is_semivowel`: (-consonantal, -syllabic) on some segment. -/
def is_semivowel (p : Phoneme) : Bool :=
  any_segment p (fun seg =>
    seg.root_features.syllabic == BinaryFeature.Unmarked
      && seg.root_features.consonantal == BinaryFeature.Unmarked)

/-- `is_voiced`: laryngeal voice present and marked on some segment. -/
def is_voiced (p : Phoneme) : Bool :=
  any_segment p (fun seg =>
    map_or (seg.autosegmental_features.laryngeal.bind (fun laryn => laryn.voice))
      false (fun voice => voice == BinaryFeature.Marked))

/-- `is_stop`: (-sonorant, -continuant) on some segment (continuant must
be present and unmarked). -/
def is_stop (p : Phoneme) : Bool :=
  any_segment p (fun seg =>
    seg.root_features.sonorant == BinaryFeature.Unmarked
      && map_or seg.autosegmental_features.continuant false
          (fun continuant => continuant == BinaryFeature.Unmarked))

/-- `is_fricative`: (-sonorant, +continuant) on some segment.  The source
line carries a stray leading `&&` token; the condition itself is as the
doc comment in `feature_classes.rs` states it. -/
def is_fricative (p : Phoneme) : Bool :=
  any_segment p (fun seg =>
    seg.root_features.sonorant == BinaryFeature.Unmarked
      && map_or seg.autosegmental_features.continuant false
          (fun continuant => continuant == BinaryFeature.Marked))

/-- `is_approximant`: (+sonorant, -syllabic, +continuant) on some segment. -/
def is_approximant (p : Phoneme) : Bool :=
  any_segment p (fun seg =>
    seg.root_features.sonorant == BinaryFeature.Marked
      && seg.root_features.syllabic == BinaryFeature.Unmarked
      && map_or seg.autosegmental_features.continuant false
          (fun continuant => continuant == BinaryFeature.Marked))

/-- `is_affricate`: a disegment whose first segment is a stop and whose
second is a fricative. -/
def is_affricate (p : Phoneme) : Bool :=
  match p with
  | .Monosegment _ => false
  | .Disegment seg1 seg2 =>
      is_stop (.Monosegment seg1) && is_fricative (.Monosegment seg2)

/-- `is_nasal`: the nasal feature is present (and marked) on some segment. -/
def is_nasal (p : Phoneme) : Bool :=
  any_segment p (fun seg =>
    map_or seg.autosegmental_features.nasal false
      (fun nasal => nasal == UnaryFeature.Marked))

/-- `is_lateral`: the lateral feature is present (and marked) on some segment. -/
def is_lateral (p : Phoneme) : Bool :=
  any_segment p (fun seg =>
    map_or seg.autosegmental_features.lateral false
      (fun lateral => lateral == UnaryFeature.Marked))

/-- `is_high_vowel`: (+syllabic, +high) on some segment. -/
def is_high_vowel (p : Phoneme) : Bool :=
  any_segment p (fun seg =>
    seg.root_features.syllabic == BinaryFeature.Marked
      && map_or ((seg.autosegmental_features.place.bind (fun place => place.dorsal)).bind
            (fun dorsal => dorsal.high))
          false (fun high => high == BinaryFeature.Marked))

/-- `is_low_vowel`: (+syllabic, +low) on some segment. -/
def is_low_vowel (p : Phoneme) : Bool :=
  any_segment p (fun seg =>
    seg.root_features.syllabic == BinaryFeature.Marked
      && map_or ((seg.autosegmental_features.place.bind (fun place => place.dorsal)).bind
            (fun dorsal => dorsal.low))
          false (fun low => low == BinaryFeature.Marked))

/-- `is_mid_vowel`: (+syllabic, -high, -low) on some segment. -/
def is_mid_vowel (p : Phoneme) : Bool :=
  any_segment p (fun seg =>
    seg.root_features.syllabic == BinaryFeature.Marked
      && map_or ((seg.autosegmental_features.place.bind (fun place => place.dorsal)).bind
            (fun dorsal => dorsal.high))
          false (fun high => high == BinaryFeature.Unmarked)
      && map_or ((seg.autosegmental_features.place.bind (fun place => place.dorsal)).bind
            (fun dorsal => dorsal.low))
          false (fun low => low == BinaryFeature.Unmarked))

/-! ## Structure-blind accessors (`features.rs`, `accessors`) -/

/-- `get_continuant`. -/
def get_continuant (segment : Segment) : Option BinaryFeature :=
  segment.autosegmental_features.continuant

/-- `get_strident`. -/
def get_strident (segment : Segment) : Option BinaryFeature :=
  segment.autosegmental_features.strident

/-- `get_lateral`. -/
def get_lateral (segment : Segment) : Option UnaryFeature :=
  segment.autosegmental_features.lateral

/-- `get_nasal`. -/
def get_nasal (segment : Segment) : Option UnaryFeature :=
  segment.autosegmental_features.nasal

/-- `get_rhotic`. -/
def get_rhotic (segment : Segment) : Option UnaryFeature :=
  segment.autosegmental_features.rhotic

/-- `get_laryngeal`. -/
def get_laryngeal (segment : Segment) : Option LaryngealFeatures :=
  segment.autosegmental_features.laryngeal

/-- `get_voice`. -/
def get_voice (segment : Segment) : Option BinaryFeature :=
  segment.autosegmental_features.laryngeal.bind (fun laryn => laryn.voice)

/-- `get_labial`. -/
def get_labial (segment : Segment) : Option LabialFeature :=
  segment.autosegmental_features.place.bind (fun place => place.labial)

/-- `get_coronal`. -/
def get_coronal (segment : Segment) : Option CoronalFeature :=
  segment.autosegmental_features.place.bind (fun place => place.coronal)

/-- `get_dorsal`. -/
def get_dorsal (segment : Segment) : Option DorsalFeature :=
  segment.autosegmental_features.place.bind (fun place => place.dorsal)

/-- `get_pharyngeal`. -/
def get_pharyngeal (segment : Segment) : Option PharyngealFeature :=
  segment.autosegmental_features.place.bind (fun place => place.pharyngeal)

/-- `get_spread_glottis`. -/
def get_spread_glottis (segment : Segment) : Option UnaryFeature :=
  segment.autosegmental_features.laryngeal.bind (fun laryn => laryn.spread_glottis)

/-- `get_constricted_glottis`. -/
def get_constricted_glottis (segment : Segment) : Option UnaryFeature :=
  segment.autosegmental_features.laryngeal.bind (fun laryn => laryn.constricted_glottis)

/-- `get_round`. -/
def get_round (segment : Segment) : Option UnaryFeature :=
  (segment.autosegmental_features.place.bind (fun place => place.labial)).bind
    (fun labial => labial.round)

/-- `get_anterior`. -/
def get_anterior (segment : Segment) : Option BinaryFeature :=
  (segment.autosegmental_features.place.bind (fun place => place.coronal)).bind
    (fun coronal => coronal.anterior)

/-- `get_distrib`. -/
def get_distrib (segment : Segment) : Option BinaryFeature :=
  (segment.autosegmental_features.place.bind (fun place => place.coronal)).bind
    (fun coronal => coronal.distrib)

/-- `get_high`. -/
def get_high (segment : Segment) : Option BinaryFeature :=
  (segment.autosegmental_features.place.bind (fun place => place.dorsal)).bind
    (fun dorsal => dorsal.high)

/-- `get_low`. -/
def get_low (segment : Segment) : Option BinaryFeature :=
  (segment.autosegmental_features.place.bind (fun place => place.dorsal)).bind
    (fun dorsal => dorsal.low)

/-- `get_back`. -/
def get_back (segment : Segment) : Option BinaryFeature :=
  (segment.autosegmental_features.place.bind (fun place => place.dorsal)).bind
    (fun dorsal => dorsal.back)

/-- `get_advanced_tongue_root`. -/
def get_advanced_tongue_root (segment : Segment) : Option BinaryFeature :=
  (segment.autosegmental_features.place.bind (fun place => place.pharyngeal)).bind
    (fun pharyn => pharyn.advanced_tongue_root)

/-! ## Feature-set flattener (`feature_set.rs`) -/

/-- Discrete feature tokens for set representation (`feature_set.rs`, `Feature`). -/
inductive Feature where
  | PlusSyllabic
  | MinusSyllabic
  | PlusConsonantal
  | MinusConsonantal
  | PlusSonorant
  | MinusSonorant
  | PlusContinuant
  | MinusContinuant
  | PlusStrident
  | MinusStrident
  | Nasal
  | Lateral
  | Rhotic
  | Laryngeal
  | PlusVoice
  | MinusVoice
  | SpreadGlottis
  | ConstrictedGlottis
  | Labial
  | Round
  | Coronal
  | PlusAnterior
  | MinusAnterior
  | PlusDistrib
  | MinusDistrib
  | Dorsal
  | PlusHigh
  | MinusHigh
  | PlusLow
  | MinusLow
  | PlusBack
  | MinusBack
  | Pharyngeal
  | PlusAdvancedTongueRoot
  | MinusAdvancedTongueRoot
  | DelRel
deriving DecidableEq, Repr

/-- Tokens inserted by the `// Root Features` block of
`segment_feature_set` (`feature_set.rs`), in source order. -/
def root_feature_tokens (seg : Segment) : List Feature :=
  (match seg.root_features.syllabic with
   | .Marked => [Feature.PlusSyllabic]
   | .Unmarked => [Feature.MinusSyllabic]) ++
  (match seg.root_features.sonorant with
   | .Marked => [Feature.PlusSonorant]
   | .Unmarked => [Feature.MinusSonorant]) ++
  (match seg.root_features.consonantal with
   | .Marked => [Feature.PlusConsonantal]
   | .Unmarked => [Feature.MinusConsonantal])

/-- Tokens inserted by the `if let Some(labial)` block. -/
def labial_tokens (seg : Segment) : List Feature :=
  match get_labial seg with
  | none => []
  | some labial =>
      [Feature.Labial] ++
      (match labial.round with
       | some .Marked => [Feature.Round]
       | none => [])

/-- Tokens inserted by the `if let Some(coronal)` block. -/
def coronal_tokens (seg : Segment) : List Feature :=
  match get_coronal seg with
  | none => []
  | some coronal =>
      [Feature.Coronal] ++
      (match coronal.anterior with
       | none => []
       | some .Marked => [Feature.PlusAnterior]
       | some .Unmarked => [Feature.MinusAnterior]) ++
      (match coronal.distrib with
       | none => []
       | some .Marked => [Feature.PlusDistrib]
       | some .Unmarked => [Feature.MinusDistrib])

/-- Tokens inserted by the `if let Some(dorsal)` block. -/
def dorsal_tokens (seg : Segment) : List Feature :=
  match get_dorsal seg with
  | none => []
  | some dorsal =>
      [Feature.Dorsal] ++
      (match dorsal.high with
       | none => []
       | some .Marked => [Feature.PlusHigh]
       | some .Unmarked => [Feature.MinusHigh]) ++
      (match dorsal.low with
       | none => []
       | some .Marked => [Feature.PlusLow]
       | some .Unmarked => [Feature.MinusLow]) ++
      (match dorsal.back with
       | none => []
       | some .Marked => [Feature.PlusBack]
       | some .Unmarked => [Feature.MinusBack])

/-- Tokens inserted by the `if let Some(pharyngeal)` block. -/
def pharyngeal_tokens (seg : Segment) : List Feature :=
  match get_pharyngeal seg with
  | none => []
  | some pharyngeal =>
      [Feature.Pharyngeal] ++
      (match pharyngeal.advanced_tongue_root with
       | none => []
       | some .Marked => [Feature.PlusAdvancedTongueRoot]
       | some .Unmarked => [Feature.MinusAdvancedTongueRoot])

/-- Tokens inserted by the `if let Some(continuant)` block. -/
def continuant_tokens (seg : Segment) : List Feature :=
  match get_continuant seg with
  | none => []
  | some .Marked => [Feature.PlusContinuant]
  | some .Unmarked => [Feature.MinusContinuant]

/-- Tokens inserted by the `if let Some(strident)` block. -/
def strident_tokens (seg : Segment) : List Feature :=
  match get_strident seg with
  | none => []
  | some .Marked => [Feature.PlusStrident]
  | some .Unmarked => [Feature.MinusStrident]

/-- Tokens inserted by the `if let Some(UnaryFeature::Marked) = get_nasal` block. -/
def nasal_tokens (seg : Segment) : List Feature :=
  match get_nasal seg with
  | some .Marked => [Feature.Nasal]
  | none => []

/-- Tokens inserted by the `if let Some(UnaryFeature::Marked) = get_lateral` block. -/
def lateral_tokens (seg : Segment) : List Feature :=
  match get_lateral seg with
  | some .Marked => [Feature.Lateral]
  | none => []

/-- Tokens inserted by the `if let Some(UnaryFeature::Marked) = get_rhotic` block. -/
def rhotic_tokens (seg : Segment) : List Feature :=
  match get_rhotic seg with
  | some .Marked => [Feature.Rhotic]
  | none => []

/-- Tokens inserted by the `if let Some(laryngeal)` block. -/
def laryngeal_tokens (seg : Segment) : List Feature :=
  match get_laryngeal seg with
  | none => []
  | some laryngeal =>
      [Feature.Laryngeal] ++
      (match laryngeal.spread_glottis with
       | some .Marked => [Feature.SpreadGlottis]
       | none => []) ++
      (match laryngeal.constricted_glottis with
       | some .Marked => [Feature.ConstrictedGlottis]
       | none => []) ++
      (match laryngeal.voice with
       | none => []
       | some .Marked => [Feature.PlusVoice]
       | some .Unmarked => [Feature.MinusVoice])

/-- The tokens inserted by `segment_feature_set` (`feature_set.rs`), in
source order: each `features.insert(tok)` on the Rust `HashSet`
contributes `tok`; the conditional blocks of the source appear here as
the block functions above in the same order. -/
def segment_feature_tokens (seg : Segment) : List Feature :=
  root_feature_tokens seg ++
  labial_tokens seg ++ coronal_tokens seg ++ dorsal_tokens seg ++
  pharyngeal_tokens seg ++
  continuant_tokens seg ++ strident_tokens seg ++ nasal_tokens seg ++
  lateral_tokens seg ++ rhotic_tokens seg ++ laryngeal_tokens seg

/-- `segment_feature_set` (`feature_set.rs`): the `HashSet` of tokens
inserted for one segment, modelled as a `Finset`. -/
def segment_feature_set (seg : Segment) : Finset Feature :=
  (segment_feature_tokens seg).toFinset

/-- `feature_set` (`feature_set.rs`): the flat token set of a phoneme.
For a disegment, the union of the two segment sets, with `DelRel`
inserted when the disegment is an affricate. -/
def feature_set (phoneme : Phoneme) : Finset Feature :=
  match phoneme with
  | .Monosegment seg => segment_feature_set seg
  | .Disegment seg1 seg2 =>
      let features := segment_feature_set seg1 ∪ segment_feature_set seg2
      if is_affricate (.Disegment seg1 seg2) then insert Feature.DelRel features
      else features

/-! ## Similarity (`rhyme/approx.rs`) -/

/-- `gather_features` (`rhyme/approx.rs`): union of the feature sets of
a slice of phonemes. -/
def gather_features (phonemes : List Phoneme) : Finset Feature :=
  phonemes.foldl (fun features phoneme => features ∪ feature_set phoneme) ∅

/-- `similarity` (`rhyme/approx.rs`): `|intersection| / |union|` of the
gathered feature sets, as an `f64` division of the two cardinalities.
The division is not special-cased in the source: when both sets are
empty it evaluates `0.0 / 0.0`, which is IEEE NaN, modelled here as
`none`.  (The numerator never exceeds the denominator, so no other
zero-denominator case arises.) -/
def similarity (s1 s2 : List Phoneme) : Option ℚ :=
  let fs1 := gather_features s1
  let fs2 := gather_features s2
  let shared_features := (fs1 ∩ fs2).card
  let all_features := (fs1 ∪ fs2).card
  if all_features = 0 then none
  else some ((shared_features : ℚ) / (all_features : ℚ))

/-! ## Stress, syllables, words (`stress.rs`, `syllable.rs`, `word.rs`) -/

/-- Four levels of lexical stress (`stress.rs`, `Stress`). -/
inductive Stress where
  | ReducedStress
  | Unstressed
  | SecondaryStress
  | Stressed
deriving DecidableEq, Repr

/-- `Stress::symbol` (`stress.rs`): the IPA mark of a stress level, when
there is one. -/
def Stress.symbol : Stress → Option Char
  | .ReducedStress => none
  | .Unstressed => none
  | .SecondaryStress => some 'ˌ'
  | .Stressed => some 'ˈ'

/-- A syllable: onset, nucleus, coda, optional stress (`syllable.rs`). -/
structure Syllable where
  onset : List Phoneme
  nucleus : Phoneme
  coda : List Phoneme
  stress : Option Stress
deriving DecidableEq, Repr

/-- `Syllable::rhyme` (`syllable.rs`): nucleus followed by coda. -/
def Syllable.rhyme (s : Syllable) : List Phoneme :=
  s.nucleus :: s.coda

/-- `Syllable::phonemes` (`syllable.rs`): onset, nucleus, coda flattened
in order. -/
def Syllable.phonemes (s : Syllable) : List Phoneme :=
  s.onset ++ [s.nucleus] ++ s.coda

/-- `Syllable::symbols` (`syllable.rs`): the concatenated symbols of the
syllable's phonemes (stress is not rendered here). -/
def Syllable.symbols (s : Syllable) : List Char :=
  (s.phonemes.map Phoneme.symbol).flatten

/-- A word is an ordered list of syllables (`word.rs`, `Word`). -/
structure Word where
  syls : List Syllable
deriving DecidableEq, Repr

/-- `Word::phonemes` (`word.rs`): the flattened phonemes of all syllables. -/
def Word.phonemes (w : Word) : List Phoneme :=
  (w.syls.map Syllable.phonemes).flatten

/-- `Word::symbols` (`word.rs`): the first syllable is preceded by its
stress mark only when it has one; every later syllable is preceded by
its stress mark, or by `'.'` when it has none. -/
def Word.symbols (w : Word) : List Char :=
  match w.syls with
  | [] => []
  | first_syl :: rest =>
      let separator := (first_syl.stress.bind Stress.symbol).getD '.'
      ((if separator ≠ '.' then [separator] else []) ++ first_syl.symbols) ++
        (rest.map (fun syl =>
          ((syl.stress.getD Stress.Unstressed).symbol.getD '.') :: syl.symbols)).flatten

/-! ## The word parser (`builders/words.rs`) -/

/-- A lookup key / re-combined grapheme symbol: a Rust `String`. -/
abbrev Symbol := List Char

/-- `WordConstructorError` (`builders/words.rs`): a single error type
whose kinds are distinguished only by the message text. -/
structure WordConstructorError where
  msg : List Char
deriving DecidableEq, Repr

/-- Shorthand: the characters of a string literal. -/
def str (s : String) : List Char := s.data

/-- The three IPA stress marks `ˈ ˌ .` (`"ˈˌ.".contains(c)`). -/
def is_ipa_stress (c : Char) : Bool := c = 'ˈ' || c = 'ˌ' || c = '.'

/-- The four stress digits (`"1234".contains(c)`). -/
def is_digit_stress (c : Char) : Bool := c = '1' || c = '2' || c = '3' || c = '4'

/-- Normalization of an IPA stress mark to a digit
(`'ˈ' => '1'`, `'ˌ' => '2'`, `_ => '3'` in `split_word_desc`). -/
def normalize_stress (c : Char) : Char :=
  if c = 'ˈ' then '1' else if c = 'ˌ' then '2' else '3'

/-- The scanning loop of `split_word_desc` (`builders/words.rs`): walks
the remaining characters with the current syllable's symbols and the
already-completed syllables as accumulators.  A stress mark or digit
closes the current syllable and becomes the first symbol of the next
one; a following tie-bar (with its next character) or rhotic hook is
re-combined into the current symbol before it is pushed. -/
def split_go : List Char → List Symbol → List (List Symbol) →
    Except WordConstructorError (List (List Symbol))
  | [], current_syllable, syllables_as_symbols =>
      -- push final syllable
      .ok (syllables_as_symbols ++ [current_syllable])
  | current :: rest, current_syllable, syllables_as_symbols =>
      let new_syllable_flag := is_ipa_stress current || is_digit_stress current
      let current_symbol : Symbol :=
        if is_ipa_stress current then [normalize_stress current] else [current]
      let syllables' :=
        if new_syllable_flag then syllables_as_symbols ++ [current_syllable]
        else syllables_as_symbols
      let current_syllable' : List Symbol :=
        if new_syllable_flag then [] else current_syllable
      match rest with
      | peeked :: rest2 =>
          if peeked = tieBar then
            match rest2 with
            | [] => .error ⟨str "BadWordDesc: connector u/0361 given without following symbol"⟩
            | connected :: rest3 =>
                split_go rest3
                  (current_syllable' ++ [current_symbol ++ [tieBar, connected]]) syllables'
          else if peeked = rhoticHook then
            split_go rest2
              (current_syllable' ++ [current_symbol ++ [rhoticHook]]) syllables'
          else
            split_go (peeked :: rest2)
              (current_syllable' ++ [current_symbol]) syllables'
      | [] => split_go [] (current_syllable' ++ [current_symbol]) syllables'
termination_by l _ _ => l.length

/-- `split_word_desc` (`builders/words.rs`): split a word description
into per-syllable symbol lists, each beginning with a stress digit.
An absent leading stress mark is normalized to `'3'` without consuming
input; a present one is consumed and normalized. -/
def split_word_desc (word_desc : List Char) :
    Except WordConstructorError (List (List Symbol)) :=
  match word_desc with
  | [] => .error ⟨str "BadSylStructure: empty string"⟩
  | c :: rest =>
      if is_digit_stress c then split_go rest [[c]] []
      else if is_ipa_stress c then split_go rest [[normalize_stress c]] []
      else split_go (c :: rest) [[('3' : Char)]] []

/-- The stress slot of a syllable symbol list (`match ... .as_str()` in
`from_accent`): exactly the one-character strings `"1"`–`"4"` carry
stress. -/
def parse_stress : Symbol → Option Stress
  | ['1'] => some Stress.Stressed
  | ['2'] => some Stress.SecondaryStress
  | ['3'] => some Stress.Unstressed
  | ['4'] => some Stress.ReducedStress
  | _ => none

/-- The per-symbol loop in `from_accent` (`builders/words.rs`): resolve
each symbol through the accent, fail on an unknown symbol, route vowels
to the nucleus (failing on a second nucleus) and consonants to onset or
coda depending on whether the nucleus has been seen. -/
def build_syl_loop (accent : Symbol → Option Phoneme) :
    List Symbol → List Phoneme → Option Phoneme → List Phoneme →
    Except WordConstructorError (List Phoneme × Option Phoneme × List Phoneme)
  | [], onset, nucleus_maybe, coda => .ok (onset, nucleus_maybe, coda)
  | symbol :: rest, onset, nucleus_maybe, coda =>
      match accent symbol with
      | none =>
          .error ⟨str "UnknownSymbol: " ++ symbol ++ str " not recognized in accent"⟩
      | some phoneme =>
          if is_vowel phoneme then
            match nucleus_maybe with
            | none => build_syl_loop accent rest onset (some phoneme) coda
            | some existing_phoneme =>
                .error ⟨str "BadSylStructure: two phonemes in syl: " ++
                  existing_phoneme.symbol ++ str "/" ++ symbol⟩
          else if nucleus_maybe = none then
            build_syl_loop accent rest (onset ++ [phoneme]) nucleus_maybe coda
          else
            build_syl_loop accent rest onset nucleus_maybe (coda ++ [phoneme])

/-- One iteration of the syllable loop in `from_accent`: take the stress
slot, scan the remaining symbols, and require a nucleus.  (The Rust
`remove(0)` cannot see an empty list: `split_word_desc` never produces
one, see `split_word_desc_ne_nil`; the `[]` case is mapped to the
missing-stress error.) -/
def from_accent_syllable (accent : Symbol → Option Phoneme)
    (multiple_syllables_flag : Bool) (syl_as_symbols : List Symbol) :
    Except WordConstructorError Syllable :=
  match syl_as_symbols with
  | [] => .error ⟨str "BadSylStructure: no stress information for syllable"⟩
  | stress_symbol :: rest =>
      match parse_stress stress_symbol with
      | none => .error ⟨str "BadSylStructure: no stress information for syllable"⟩
      | some stress =>
          match build_syl_loop accent rest [] none [] with
          | .error e => .error e
          | .ok (onset, nucleus_maybe, coda) =>
              match nucleus_maybe with
              | none => .error ⟨str "BadSylStructure: no nucleus in syllable"⟩
              | some nucleus =>
                  .ok { onset := onset, nucleus := nucleus, coda := coda,
                        stress := if multiple_syllables_flag then some stress else none }

/-- The `for` loop over syllables in `from_accent` (`builders/words.rs`):
construct each syllable in order and push it, stopping at the first
error. -/
def build_syllables (accent : Symbol → Option Phoneme)
    (multiple_syllables_flag : Bool) :
    List (List Symbol) → Except WordConstructorError (List Syllable)
  | [] => .ok []
  | syl_as_symbols :: rest =>
      match from_accent_syllable accent multiple_syllables_flag syl_as_symbols with
      | .error e => .error e
      | .ok syl =>
          match build_syllables accent multiple_syllables_flag rest with
          | .error e => .error e
          | .ok syls => .ok (syl :: syls)

/-- `from_accent` (`builders/words.rs`): split the description, then
construct the syllables left to right, stopping at the first error. -/
def from_accent (accent : Symbol → Option Phoneme) (word_desc : List Char) :
    Except WordConstructorError Word :=
  match split_word_desc word_desc with
  | .error e => .error e
  | .ok syls_as_symbols =>
      let multiple_syllables_flag := syls_as_symbols.length > 1
      match build_syllables accent multiple_syllables_flag syls_as_symbols with
      | .error e => .error e
      | .ok syls => .ok ⟨syls⟩

/-! ## Membership lemmas for the flattened token blocks -/

theorem get_round_eq (seg : Segment) :
    get_round seg = (get_labial seg).bind (fun labial => labial.round) := by
  simp [get_round, get_labial, Option.bind_assoc]

theorem get_anterior_eq (seg : Segment) :
    get_anterior seg = (get_coronal seg).bind (fun coronal => coronal.anterior) := by
  simp [get_anterior, get_coronal, Option.bind_assoc]

theorem get_distrib_eq (seg : Segment) :
    get_distrib seg = (get_coronal seg).bind (fun coronal => coronal.distrib) := by
  simp [get_distrib, get_coronal, Option.bind_assoc]

theorem get_high_eq (seg : Segment) :
    get_high seg = (get_dorsal seg).bind (fun dorsal => dorsal.high) := by
  simp [get_high, get_dorsal, Option.bind_assoc]

theorem get_low_eq (seg : Segment) :
    get_low seg = (get_dorsal seg).bind (fun dorsal => dorsal.low) := by
  simp [get_low, get_dorsal, Option.bind_assoc]

theorem get_back_eq (seg : Segment) :
    get_back seg = (get_dorsal seg).bind (fun dorsal => dorsal.back) := by
  simp [get_back, get_dorsal, Option.bind_assoc]

theorem get_advanced_tongue_root_eq (seg : Segment) :
    get_advanced_tongue_root seg =
      (get_pharyngeal seg).bind (fun pharyn => pharyn.advanced_tongue_root) := by
  simp [get_advanced_tongue_root, get_pharyngeal, Option.bind_assoc]

theorem get_voice_eq (seg : Segment) :
    get_voice seg = (get_laryngeal seg).bind (fun laryn => laryn.voice) := rfl

theorem get_spread_glottis_eq (seg : Segment) :
    get_spread_glottis seg = (get_laryngeal seg).bind (fun laryn => laryn.spread_glottis) := rfl

theorem get_constricted_glottis_eq (seg : Segment) :
    get_constricted_glottis seg =
      (get_laryngeal seg).bind (fun laryn => laryn.constricted_glottis) := rfl

theorem mem_root_feature_tokens_iff (f : Feature) (seg : Segment) :
    f ∈ root_feature_tokens seg ↔
      (f = Feature.PlusSyllabic ∧ seg.root_features.syllabic = BinaryFeature.Marked) ∨
      (f = Feature.MinusSyllabic ∧ seg.root_features.syllabic = BinaryFeature.Unmarked) ∨
      (f = Feature.PlusSonorant ∧ seg.root_features.sonorant = BinaryFeature.Marked) ∨
      (f = Feature.MinusSonorant ∧ seg.root_features.sonorant = BinaryFeature.Unmarked) ∨
      (f = Feature.PlusConsonantal ∧ seg.root_features.consonantal = BinaryFeature.Marked) ∨
      (f = Feature.MinusConsonantal ∧ seg.root_features.consonantal = BinaryFeature.Unmarked) := by
  unfold root_feature_tokens
  rcases seg with ⟨⟨hc, hs, hy⟩, _, _⟩
  cases hc <;> cases hs <;> cases hy <;> simp <;> tauto

theorem mem_labial_tokens_iff (f : Feature) (seg : Segment) :
    f ∈ labial_tokens seg ↔
      (f = Feature.Labial ∧ (get_labial seg).isSome = true) ∨
      (f = Feature.Round ∧ get_round seg = some UnaryFeature.Marked) := by
  unfold labial_tokens
  rw [get_round_eq]
  cases h : get_labial seg with
  | none => simp
  | some labial =>
      cases hr : labial.round with
      | none => simp [hr]
      | some u => cases u; simp [hr]

theorem mem_coronal_tokens_iff (f : Feature) (seg : Segment) :
    f ∈ coronal_tokens seg ↔
      (f = Feature.Coronal ∧ (get_coronal seg).isSome = true) ∨
      (f = Feature.PlusAnterior ∧ get_anterior seg = some BinaryFeature.Marked) ∨
      (f = Feature.MinusAnterior ∧ get_anterior seg = some BinaryFeature.Unmarked) ∨
      (f = Feature.PlusDistrib ∧ get_distrib seg = some BinaryFeature.Marked) ∨
      (f = Feature.MinusDistrib ∧ get_distrib seg = some BinaryFeature.Unmarked) := by
  unfold coronal_tokens
  rw [get_anterior_eq, get_distrib_eq]
  cases h : get_coronal seg with
  | none => simp
  | some coronal =>
      rcases coronal with ⟨ant, dis⟩
      rcases ant with _ | a
      · rcases dis with _ | d
        · simp
        · cases d <;> simp <;> tauto
      · rcases dis with _ | d
        · cases a <;> simp <;> tauto
        · cases a <;> cases d <;> simp <;> tauto

theorem mem_dorsal_tokens_iff (f : Feature) (seg : Segment) :
    f ∈ dorsal_tokens seg ↔
      (f = Feature.Dorsal ∧ (get_dorsal seg).isSome = true) ∨
      (f = Feature.PlusHigh ∧ get_high seg = some BinaryFeature.Marked) ∨
      (f = Feature.MinusHigh ∧ get_high seg = some BinaryFeature.Unmarked) ∨
      (f = Feature.PlusLow ∧ get_low seg = some BinaryFeature.Marked) ∨
      (f = Feature.MinusLow ∧ get_low seg = some BinaryFeature.Unmarked) ∨
      (f = Feature.PlusBack ∧ get_back seg = some BinaryFeature.Marked) ∨
      (f = Feature.MinusBack ∧ get_back seg = some BinaryFeature.Unmarked) := by
  unfold dorsal_tokens
  rw [get_high_eq, get_low_eq, get_back_eq]
  cases h : get_dorsal seg with
  | none => simp
  | some dorsal =>
      rcases dorsal with ⟨hi, lo, ba⟩
      rcases hi with _ | a <;> rcases lo with _ | b <;> rcases ba with _ | c
      case none.none.none => simp
      all_goals (first
        | (cases a <;> cases b <;> cases c <;> simp <;> tauto)
        | (cases a <;> cases b <;> simp <;> tauto)
        | (cases a <;> cases c <;> simp <;> tauto)
        | (cases b <;> cases c <;> simp <;> tauto)
        | (cases a <;> simp <;> tauto)
        | (cases b <;> simp <;> tauto)
        | (cases c <;> simp <;> tauto))

theorem mem_pharyngeal_tokens_iff (f : Feature) (seg : Segment) :
    f ∈ pharyngeal_tokens seg ↔
      (f = Feature.Pharyngeal ∧ (get_pharyngeal seg).isSome = true) ∨
      (f = Feature.PlusAdvancedTongueRoot ∧
        get_advanced_tongue_root seg = some BinaryFeature.Marked) ∨
      (f = Feature.MinusAdvancedTongueRoot ∧
        get_advanced_tongue_root seg = some BinaryFeature.Unmarked) := by
  unfold pharyngeal_tokens
  rw [get_advanced_tongue_root_eq]
  cases h : get_pharyngeal seg with
  | none => simp
  | some pharyngeal =>
      rcases pharyngeal with ⟨_ | atr⟩
      · simp
      · cases atr <;> simp <;> tauto

theorem mem_continuant_tokens_iff (f : Feature) (seg : Segment) :
    f ∈ continuant_tokens seg ↔
      (f = Feature.PlusContinuant ∧ get_continuant seg = some BinaryFeature.Marked) ∨
      (f = Feature.MinusContinuant ∧ get_continuant seg = some BinaryFeature.Unmarked) := by
  unfold continuant_tokens
  cases h : get_continuant seg with
  | none => simp
  | some b => cases b <;> simp <;> tauto

theorem mem_strident_tokens_iff (f : Feature) (seg : Segment) :
    f ∈ strident_tokens seg ↔
      (f = Feature.PlusStrident ∧ get_strident seg = some BinaryFeature.Marked) ∨
      (f = Feature.MinusStrident ∧ get_strident seg = some BinaryFeature.Unmarked) := by
  unfold strident_tokens
  cases h : get_strident seg with
  | none => simp
  | some b => cases b <;> simp <;> tauto

theorem mem_nasal_tokens_iff (f : Feature) (seg : Segment) :
    f ∈ nasal_tokens seg ↔
      f = Feature.Nasal ∧ get_nasal seg = some UnaryFeature.Marked := by
  unfold nasal_tokens
  cases h : get_nasal seg with
  | none => simp
  | some u => cases u; simp

theorem mem_lateral_tokens_iff (f : Feature) (seg : Segment) :
    f ∈ lateral_tokens seg ↔
      f = Feature.Lateral ∧ get_lateral seg = some UnaryFeature.Marked := by
  unfold lateral_tokens
  cases h : get_lateral seg with
  | none => simp
  | some u => cases u; simp

theorem mem_rhotic_tokens_iff (f : Feature) (seg : Segment) :
    f ∈ rhotic_tokens seg ↔
      f = Feature.Rhotic ∧ get_rhotic seg = some UnaryFeature.Marked := by
  unfold rhotic_tokens
  cases h : get_rhotic seg with
  | none => simp
  | some u => cases u; simp

theorem mem_laryngeal_tokens_iff (f : Feature) (seg : Segment) :
    f ∈ laryngeal_tokens seg ↔
      (f = Feature.Laryngeal ∧ (get_laryngeal seg).isSome = true) ∨
      (f = Feature.SpreadGlottis ∧ get_spread_glottis seg = some UnaryFeature.Marked) ∨
      (f = Feature.ConstrictedGlottis ∧
        get_constricted_glottis seg = some UnaryFeature.Marked) ∨
      (f = Feature.PlusVoice ∧ get_voice seg = some BinaryFeature.Marked) ∨
      (f = Feature.MinusVoice ∧ get_voice seg = some BinaryFeature.Unmarked) := by
  unfold laryngeal_tokens
  rw [get_voice_eq, get_spread_glottis_eq, get_constricted_glottis_eq]
  cases h : get_laryngeal seg with
  | none => simp
  | some laryngeal =>
      rcases laryngeal with ⟨sg, cg, vo⟩
      rcases sg with _ | a <;> rcases cg with _ | b <;> rcases vo with _ | c
      case none.none.none => simp
      all_goals (first
        | (cases a <;> cases b <;> cases c <;> simp <;> tauto)
        | (cases a <;> cases b <;> simp <;> tauto)
        | (cases a <;> cases c <;> simp <;> tauto)
        | (cases b <;> cases c <;> simp <;> tauto)
        | (cases a <;> simp <;> tauto)
        | (cases b <;> simp <;> tauto)
        | (cases c <;> simp <;> tauto))

theorem mem_segment_feature_set_iff (f : Feature) (seg : Segment) :
    f ∈ segment_feature_set seg ↔
      f ∈ root_feature_tokens seg ∨ f ∈ labial_tokens seg ∨ f ∈ coronal_tokens seg ∨
      f ∈ dorsal_tokens seg ∨ f ∈ pharyngeal_tokens seg ∨ f ∈ continuant_tokens seg ∨
      f ∈ strident_tokens seg ∨ f ∈ nasal_tokens seg ∨ f ∈ lateral_tokens seg ∨
      f ∈ rhotic_tokens seg ∨ f ∈ laryngeal_tokens seg := by
  simp [segment_feature_set, segment_feature_tokens]

/-! ## Concrete segments and phonemes for witnesses and counterexamples -/

/-- A bare segment: all root features unmarked, no autosegmental features. -/
def segBase : Segment :=
  { root_features :=
      { consonantal := BinaryFeature.Unmarked
        sonorant := BinaryFeature.Unmarked
        syllabic := BinaryFeature.Unmarked }
    autosegmental_features :=
      { nasal := none, lateral := none, rhotic := none,
        strident := none, continuant := none, place := none, laryngeal := none }
    symbol := 'x' }

/-- A (-sonorant, +continuant) segment: a fricative. -/
def fricativeSeg : Segment :=
  { segBase with
      autosegmental_features :=
        { segBase.autosegmental_features with continuant := some BinaryFeature.Marked }
      symbol := 's' }

/-- A (-sonorant, -continuant) segment: a stop. -/
def stopSeg : Segment :=
  { segBase with
      autosegmental_features :=
        { segBase.autosegmental_features with continuant := some BinaryFeature.Unmarked }
      symbol := 't' }

/-- A +syllabic segment: a vowel. -/
def vowelSegA : Segment :=
  { segBase with
      root_features := { segBase.root_features with syllabic := BinaryFeature.Marked }
      symbol := 'a' }

/-- A disegment pairing a +syllabic segment with a -syllabic one. -/
def mixedDisegment : Phoneme := Phoneme.Disegment vowelSegA segBase

/-! ## Helper lemmas about `feature_set` and `gather_features` -/

theorem feature_set_monosegment (seg : Segment) :
    feature_set (Phoneme.Monosegment seg) = segment_feature_set seg := rfl

theorem feature_set_disegment_def (s1 s2 : Segment) :
    feature_set (Phoneme.Disegment s1 s2) =
      (if is_affricate (Phoneme.Disegment s1 s2)
       then insert Feature.DelRel (segment_feature_set s1 ∪ segment_feature_set s2)
       else segment_feature_set s1 ∪ segment_feature_set s2) := rfl

theorem delrel_not_mem_segment_feature_set (seg : Segment) :
    Feature.DelRel ∉ segment_feature_set seg := by
  simp [mem_segment_feature_set_iff, mem_root_feature_tokens_iff, mem_labial_tokens_iff,
    mem_coronal_tokens_iff, mem_dorsal_tokens_iff, mem_pharyngeal_tokens_iff,
    mem_continuant_tokens_iff, mem_strident_tokens_iff, mem_nasal_tokens_iff,
    mem_lateral_tokens_iff, mem_rhotic_tokens_iff, mem_laryngeal_tokens_iff]

theorem mem_feature_set_left (f : Feature) (s1 s2 : Segment)
    (h : f ∈ segment_feature_set s1) : f ∈ feature_set (Phoneme.Disegment s1 s2) := by
  unfold feature_set
  by_cases haff : is_affricate (Phoneme.Disegment s1 s2) = true
  · simp [haff, Finset.mem_insert, Finset.mem_union, h]
  · simp only [Bool.not_eq_true] at haff
    simp [haff, Finset.mem_union, h]

theorem syllabic_token_mem (seg : Segment) :
    Feature.PlusSyllabic ∈ segment_feature_set seg ∨
      Feature.MinusSyllabic ∈ segment_feature_set seg := by
  cases h : seg.root_features.syllabic with
  | Marked =>
      left
      rw [mem_segment_feature_set_iff]
      exact Or.inl ((mem_root_feature_tokens_iff _ _).2 (Or.inl ⟨rfl, h⟩))
  | Unmarked =>
      right
      rw [mem_segment_feature_set_iff]
      exact Or.inl ((mem_root_feature_tokens_iff _ _).2 (Or.inr (Or.inl ⟨rfl, h⟩)))

theorem sonorant_token_mem (seg : Segment) :
    Feature.PlusSonorant ∈ segment_feature_set seg ∨
      Feature.MinusSonorant ∈ segment_feature_set seg := by
  cases h : seg.root_features.sonorant with
  | Marked =>
      left
      rw [mem_segment_feature_set_iff]
      exact Or.inl ((mem_root_feature_tokens_iff _ _).2 (Or.inr (Or.inr (Or.inl ⟨rfl, h⟩))))
  | Unmarked =>
      right
      rw [mem_segment_feature_set_iff]
      exact Or.inl ((mem_root_feature_tokens_iff _ _).2
        (Or.inr (Or.inr (Or.inr (Or.inl ⟨rfl, h⟩)))))

theorem consonantal_token_mem (seg : Segment) :
    Feature.PlusConsonantal ∈ segment_feature_set seg ∨
      Feature.MinusConsonantal ∈ segment_feature_set seg := by
  cases h : seg.root_features.consonantal with
  | Marked =>
      left
      rw [mem_segment_feature_set_iff]
      exact Or.inl ((mem_root_feature_tokens_iff _ _).2
        (Or.inr (Or.inr (Or.inr (Or.inr (Or.inl ⟨rfl, h⟩))))))
  | Unmarked =>
      right
      rw [mem_segment_feature_set_iff]
      exact Or.inl ((mem_root_feature_tokens_iff _ _).2
        (Or.inr (Or.inr (Or.inr (Or.inr (Or.inr ⟨rfl, h⟩))))))

theorem feature_set_nonempty (p : Phoneme) : feature_set p ≠ ∅ := by
  intro hempty
  cases p with
  | Monosegment seg =>
      rcases syllabic_token_mem seg with h | h <;>
        (rw [← feature_set_monosegment] at h; rw [hempty] at h; exact absurd h (by simp))
  | Disegment s1 s2 =>
      rcases syllabic_token_mem s1 with h | h <;>
        (have h2 := mem_feature_set_left _ s1 s2 h; rw [hempty] at h2; exact absurd h2 (by simp))

theorem mem_gather_features (x : Feature) (ps : List Phoneme) :
    x ∈ gather_features ps ↔ ∃ p ∈ ps, x ∈ feature_set p := by
  have general : ∀ (l : List Phoneme) (acc : Finset Feature),
      x ∈ l.foldl (fun features phoneme => features ∪ feature_set phoneme) acc ↔
        x ∈ acc ∨ ∃ p ∈ l, x ∈ feature_set p := by
    intro l
    induction l with
    | nil => intro acc; simp
    | cons p ps ih =>
        intro acc
        simp only [List.foldl_cons, ih, Finset.mem_union, List.mem_cons]
        constructor
        · rintro ((h | h) | ⟨q, hq, hx⟩)
          · exact Or.inl h
          · exact Or.inr ⟨p, Or.inl rfl, h⟩
          · exact Or.inr ⟨q, Or.inr hq, hx⟩
        · rintro (h | ⟨q, (rfl | hq), hx⟩)
          · exact Or.inl (Or.inl h)
          · exact Or.inl (Or.inr hx)
          · exact Or.inr ⟨q, hq, hx⟩
  simpa using general ps ∅

theorem gather_features_nonempty (ps : List Phoneme) (h : ps ≠ []) :
    (gather_features ps).Nonempty := by
  cases ps with
  | nil => exact absurd rfl h
  | cons p rest =>
      cases p with
      | Monosegment seg =>
          rcases syllabic_token_mem seg with hm | hm
          · exact ⟨Feature.PlusSyllabic,
              (mem_gather_features _ _).2 ⟨Phoneme.Monosegment seg, by simp, hm⟩⟩
          · exact ⟨Feature.MinusSyllabic,
              (mem_gather_features _ _).2 ⟨Phoneme.Monosegment seg, by simp, hm⟩⟩
      | Disegment s1 s2 =>
          rcases syllabic_token_mem s1 with hm | hm
          · exact ⟨Feature.PlusSyllabic, (mem_gather_features _ _).2
              ⟨Phoneme.Disegment s1 s2, by simp, mem_feature_set_left _ s1 s2 hm⟩⟩
          · exact ⟨Feature.MinusSyllabic, (mem_gather_features _ _).2
              ⟨Phoneme.Disegment s1 s2, by simp, mem_feature_set_left _ s1 s2 hm⟩⟩

theorem union_card_ne_zero (s1 s2 : List Phoneme) (h : ¬(s1 = [] ∧ s2 = [])) :
    (gather_features s1 ∪ gather_features s2).card ≠ 0 := by
  rw [Finset.card_ne_zero]
  by_cases h1 : s1 = []
  · have h2 : s2 ≠ [] := fun hc => h ⟨h1, hc⟩
    obtain ⟨x, hx⟩ := gather_features_nonempty s2 h2
    exact ⟨x, Finset.mem_union_right _ hx⟩
  · obtain ⟨x, hx⟩ := gather_features_nonempty s1 h1
    exact ⟨x, Finset.mem_union_left _ hx⟩

/-! ## Claim C6: disegment classifiers are segment-level OR -/

/-- C6: every classifier predicate except `is_affricate`, applied to a
`Disegment(s1, s2)`, is true iff the corresponding segment-level
condition holds of `s1` or of `s2` (for `is_consonant`, via negation of
that OR). -/
theorem disegment_predicates_are_or (s1 s2 : Segment) :
    is_vowel (Phoneme.Disegment s1 s2) =
      (is_vowel (Phoneme.Monosegment s1) || is_vowel (Phoneme.Monosegment s2)) ∧
    is_consonant (Phoneme.Disegment s1 s2) =
      !(is_vowel (Phoneme.Monosegment s1) || is_vowel (Phoneme.Monosegment s2)) ∧
    is_semivowel (Phoneme.Disegment s1 s2) =
      (is_semivowel (Phoneme.Monosegment s1) || is_semivowel (Phoneme.Monosegment s2)) ∧
    is_voiced (Phoneme.Disegment s1 s2) =
      (is_voiced (Phoneme.Monosegment s1) || is_voiced (Phoneme.Monosegment s2)) ∧
    is_stop (Phoneme.Disegment s1 s2) =
      (is_stop (Phoneme.Monosegment s1) || is_stop (Phoneme.Monosegment s2)) ∧
    is_fricative (Phoneme.Disegment s1 s2) =
      (is_fricative (Phoneme.Monosegment s1) || is_fricative (Phoneme.Monosegment s2)) ∧
    is_approximant (Phoneme.Disegment s1 s2) =
      (is_approximant (Phoneme.Monosegment s1) || is_approximant (Phoneme.Monosegment s2)) ∧
    is_nasal (Phoneme.Disegment s1 s2) =
      (is_nasal (Phoneme.Monosegment s1) || is_nasal (Phoneme.Monosegment s2)) ∧
    is_lateral (Phoneme.Disegment s1 s2) =
      (is_lateral (Phoneme.Monosegment s1) || is_lateral (Phoneme.Monosegment s2)) ∧
    is_high_vowel (Phoneme.Disegment s1 s2) =
      (is_high_vowel (Phoneme.Monosegment s1) || is_high_vowel (Phoneme.Monosegment s2)) ∧
    is_low_vowel (Phoneme.Disegment s1 s2) =
      (is_low_vowel (Phoneme.Monosegment s1) || is_low_vowel (Phoneme.Monosegment s2)) ∧
    is_mid_vowel (Phoneme.Disegment s1 s2) =
      (is_mid_vowel (Phoneme.Monosegment s1) || is_mid_vowel (Phoneme.Monosegment s2)) :=
  ⟨rfl, rfl, rfl, rfl, rfl, rfl, rfl, rfl, rfl, rfl, rfl, rfl⟩

/-! ## Claim C7: characterization of `is_affricate` -/

/-- C7: `is_affricate` is false on every monosegment; on a disegment it
holds iff the first segment is a stop and the second a fricative, in
that order; with the order swapped (first a fricative, second a stop)
it is false. -/
theorem is_affricate_characterization :
    (∀ s : Segment, is_affricate (Phoneme.Monosegment s) = false) ∧
    (∀ a b : Segment, is_affricate (Phoneme.Disegment a b) =
      (is_stop (Phoneme.Monosegment a) && is_fricative (Phoneme.Monosegment b))) ∧
    (∀ a b : Segment, is_fricative (Phoneme.Monosegment a) = true →
      is_stop (Phoneme.Monosegment b) = true →
      is_affricate (Phoneme.Disegment a b) = false) := by
  refine ⟨fun s => rfl, fun a b => rfl, fun a b hfa _ => ?_⟩
  have hstop : is_stop (Phoneme.Monosegment a) = false := by
    cases hc : a.autosegmental_features.continuant with
    | none => simp [is_fricative, any_segment, map_or, hc] at hfa
    | some c =>
        cases c with
        | Marked => simp [is_stop, any_segment, map_or, hc]
        | Unmarked => simp [is_fricative, any_segment, map_or, hc] at hfa
  simp [is_affricate, hstop]

/-- Witness for C7: a concrete fricative-then-stop disegment is not an
affricate. -/
theorem is_affricate_characterization_witness :
    is_fricative (Phoneme.Monosegment fricativeSeg) = true ∧
    is_stop (Phoneme.Monosegment stopSeg) = true ∧
    is_affricate (Phoneme.Disegment fricativeSeg stopSeg) = false :=
  ⟨by decide, by decide,
    is_affricate_characterization.2.2 fricativeSeg stopSeg (by decide) (by decide)⟩

/-! ## Claim C8: the disegment feature set -/

/-- C8: for every disegment, `feature_set` is the union of the two
per-segment flattened token sets, plus the single token `DelRel` exactly
when the disegment is an affricate; and an absent (inapplicable) feature
contributes no token to a segment's flattened set. -/
theorem feature_set_disegment (s1 s2 : Segment) :
    (feature_set (Phoneme.Disegment s1 s2) =
      (segment_feature_set s1 ∪ segment_feature_set s2) ∪
        (if is_affricate (Phoneme.Disegment s1 s2) = true
         then {Feature.DelRel} else ∅)) ∧
    (Feature.DelRel ∈ feature_set (Phoneme.Disegment s1 s2) ↔
      is_affricate (Phoneme.Disegment s1 s2) = true) ∧
    (∀ seg : Segment,
      (get_continuant seg = none →
        Feature.PlusContinuant ∉ segment_feature_set seg ∧
        Feature.MinusContinuant ∉ segment_feature_set seg) ∧
      (get_strident seg = none →
        Feature.PlusStrident ∉ segment_feature_set seg ∧
        Feature.MinusStrident ∉ segment_feature_set seg) ∧
      (get_nasal seg = none → Feature.Nasal ∉ segment_feature_set seg) ∧
      (get_lateral seg = none → Feature.Lateral ∉ segment_feature_set seg) ∧
      (get_rhotic seg = none → Feature.Rhotic ∉ segment_feature_set seg) ∧
      (get_labial seg = none →
        Feature.Labial ∉ segment_feature_set seg ∧
        Feature.Round ∉ segment_feature_set seg) ∧
      (get_round seg = none → Feature.Round ∉ segment_feature_set seg) ∧
      (get_coronal seg = none →
        Feature.Coronal ∉ segment_feature_set seg ∧
        Feature.PlusAnterior ∉ segment_feature_set seg ∧
        Feature.MinusAnterior ∉ segment_feature_set seg ∧
        Feature.PlusDistrib ∉ segment_feature_set seg ∧
        Feature.MinusDistrib ∉ segment_feature_set seg) ∧
      (get_anterior seg = none →
        Feature.PlusAnterior ∉ segment_feature_set seg ∧
        Feature.MinusAnterior ∉ segment_feature_set seg) ∧
      (get_distrib seg = none →
        Feature.PlusDistrib ∉ segment_feature_set seg ∧
        Feature.MinusDistrib ∉ segment_feature_set seg) ∧
      (get_dorsal seg = none →
        Feature.Dorsal ∉ segment_feature_set seg ∧
        Feature.PlusHigh ∉ segment_feature_set seg ∧
        Feature.MinusHigh ∉ segment_feature_set seg ∧
        Feature.PlusLow ∉ segment_feature_set seg ∧
        Feature.MinusLow ∉ segment_feature_set seg ∧
        Feature.PlusBack ∉ segment_feature_set seg ∧
        Feature.MinusBack ∉ segment_feature_set seg) ∧
      (get_high seg = none →
        Feature.PlusHigh ∉ segment_feature_set seg ∧
        Feature.MinusHigh ∉ segment_feature_set seg) ∧
      (get_low seg = none →
        Feature.PlusLow ∉ segment_feature_set seg ∧
        Feature.MinusLow ∉ segment_feature_set seg) ∧
      (get_back seg = none →
        Feature.PlusBack ∉ segment_feature_set seg ∧
        Feature.MinusBack ∉ segment_feature_set seg) ∧
      (get_pharyngeal seg = none →
        Feature.Pharyngeal ∉ segment_feature_set seg ∧
        Feature.PlusAdvancedTongueRoot ∉ segment_feature_set seg ∧
        Feature.MinusAdvancedTongueRoot ∉ segment_feature_set seg) ∧
      (get_advanced_tongue_root seg = none →
        Feature.PlusAdvancedTongueRoot ∉ segment_feature_set seg ∧
        Feature.MinusAdvancedTongueRoot ∉ segment_feature_set seg) ∧
      (get_laryngeal seg = none →
        Feature.Laryngeal ∉ segment_feature_set seg ∧
        Feature.SpreadGlottis ∉ segment_feature_set seg ∧
        Feature.ConstrictedGlottis ∉ segment_feature_set seg ∧
        Feature.PlusVoice ∉ segment_feature_set seg ∧
        Feature.MinusVoice ∉ segment_feature_set seg) ∧
      (get_spread_glottis seg = none →
        Feature.SpreadGlottis ∉ segment_feature_set seg) ∧
      (get_constricted_glottis seg = none →
        Feature.ConstrictedGlottis ∉ segment_feature_set seg) ∧
      (get_voice seg = none →
        Feature.PlusVoice ∉ segment_feature_set seg ∧
        Feature.MinusVoice ∉ segment_feature_set seg)) := by
  refine ⟨?_, ?_, ?_⟩
  · rw [feature_set_disegment_def]
    cases haff : is_affricate (Phoneme.Disegment s1 s2)
    · simp
    · simp only [if_pos, if_true, Bool.cond_true]
      rw [Finset.insert_eq, Finset.union_comm]
  · rw [feature_set_disegment_def]
    cases haff : is_affricate (Phoneme.Disegment s1 s2)
    · simp [delrel_not_mem_segment_feature_set s1, delrel_not_mem_segment_feature_set s2]
    · simp
  · intro seg
    refine ⟨?_, ?_, ?_, ?_, ?_, ?_, ?_, ?_, ?_, ?_, ?_, ?_, ?_, ?_, ?_, ?_, ?_, ?_, ?_, ?_⟩ <;>
      (intro h
       simp_all [mem_segment_feature_set_iff, mem_root_feature_tokens_iff,
         mem_labial_tokens_iff, mem_coronal_tokens_iff, mem_dorsal_tokens_iff,
         mem_pharyngeal_tokens_iff, mem_continuant_tokens_iff, mem_strident_tokens_iff,
         mem_nasal_tokens_iff, mem_lateral_tokens_iff, mem_rhotic_tokens_iff,
         mem_laryngeal_tokens_iff, get_round_eq, get_anterior_eq, get_distrib_eq,
         get_high_eq, get_low_eq, get_back_eq, get_advanced_tongue_root_eq, get_voice_eq,
         get_spread_glottis_eq, get_constricted_glottis_eq, Option.bind_eq_some])

/-- Witness for C8: the bare segment has no continuant feature and
correspondingly no continuant token in its flattened set. -/
theorem feature_set_disegment_witness :
    get_continuant segBase = none ∧
    Feature.PlusContinuant ∉ segment_feature_set segBase :=
  ⟨rfl, (((feature_set_disegment segBase segBase).2.2 segBase).1 rfl).1⟩

/-! ## Claim C10 (amended): root tokens and the similarity denominator -/

/-- C10 as amended: every phoneme's flattened feature set contains at
least one of `PlusSyllabic`/`MinusSyllabic`, of
`PlusSonorant`/`MinusSonorant` and of `PlusConsonantal`/`MinusConsonantal`
(for a monosegment, exactly one of each pair), so `feature_set` is never
empty and the `similarity` denominator `|union|` is nonzero whenever at
least one input slice is non-empty. -/
theorem feature_set_root_tokens :
    (∀ p : Phoneme,
      (Feature.PlusSyllabic ∈ feature_set p ∨ Feature.MinusSyllabic ∈ feature_set p) ∧
      (Feature.PlusSonorant ∈ feature_set p ∨ Feature.MinusSonorant ∈ feature_set p) ∧
      (Feature.PlusConsonantal ∈ feature_set p ∨
        Feature.MinusConsonantal ∈ feature_set p)) ∧
    (∀ seg : Segment,
      ¬(Feature.PlusSyllabic ∈ feature_set (Phoneme.Monosegment seg) ∧
        Feature.MinusSyllabic ∈ feature_set (Phoneme.Monosegment seg)) ∧
      ¬(Feature.PlusSonorant ∈ feature_set (Phoneme.Monosegment seg) ∧
        Feature.MinusSonorant ∈ feature_set (Phoneme.Monosegment seg)) ∧
      ¬(Feature.PlusConsonantal ∈ feature_set (Phoneme.Monosegment seg) ∧
        Feature.MinusConsonantal ∈ feature_set (Phoneme.Monosegment seg))) ∧
    (∀ p : Phoneme, feature_set p ≠ ∅) ∧
    (∀ s1 s2 : List Phoneme, ¬(s1 = [] ∧ s2 = []) →
      (gather_features s1 ∪ gather_features s2).card ≠ 0) := by
  have hmem : ∀ p : Phoneme,
      (Feature.PlusSyllabic ∈ feature_set p ∨ Feature.MinusSyllabic ∈ feature_set p) ∧
      (Feature.PlusSonorant ∈ feature_set p ∨ Feature.MinusSonorant ∈ feature_set p) ∧
      (Feature.PlusConsonantal ∈ feature_set p ∨
        Feature.MinusConsonantal ∈ feature_set p) := by
    intro p
    cases p with
    | Monosegment seg =>
        rw [feature_set_monosegment]
        exact ⟨syllabic_token_mem seg, sonorant_token_mem seg, consonantal_token_mem seg⟩
    | Disegment a b =>
        refine ⟨?_, ?_, ?_⟩
        · rcases syllabic_token_mem a with h | h
          · exact Or.inl (mem_feature_set_left _ a b h)
          · exact Or.inr (mem_feature_set_left _ a b h)
        · rcases sonorant_token_mem a with h | h
          · exact Or.inl (mem_feature_set_left _ a b h)
          · exact Or.inr (mem_feature_set_left _ a b h)
        · rcases consonantal_token_mem a with h | h
          · exact Or.inl (mem_feature_set_left _ a b h)
          · exact Or.inr (mem_feature_set_left _ a b h)
  refine ⟨hmem, ?_, feature_set_nonempty, union_card_ne_zero⟩
  intro seg
  refine ⟨?_, ?_, ?_⟩ <;>
    (rw [feature_set_monosegment]
     rintro ⟨h1, h2⟩
     simp [mem_segment_feature_set_iff, mem_root_feature_tokens_iff, mem_labial_tokens_iff,
       mem_coronal_tokens_iff, mem_dorsal_tokens_iff, mem_pharyngeal_tokens_iff,
       mem_continuant_tokens_iff, mem_strident_tokens_iff, mem_nasal_tokens_iff,
       mem_lateral_tokens_iff, mem_rhotic_tokens_iff, mem_laryngeal_tokens_iff] at h1 h2
     rw [h1] at h2
     cases h2)

/-- Witness for C10: at a concrete non-empty slice the union cardinality
is nonzero. -/
theorem feature_set_root_tokens_witness :
    ¬(([Phoneme.Monosegment vowelSegA] : List Phoneme) = [] ∧ ([] : List Phoneme) = []) ∧
    (gather_features [Phoneme.Monosegment vowelSegA] ∪ gather_features []).card ≠ 0 :=
  ⟨by simp, feature_set_root_tokens.2.2.2 [Phoneme.Monosegment vowelSegA] [] (by simp)⟩

/-- Counterexample to C10 as stated: the mixed disegment carries both
`PlusSyllabic` and `MinusSyllabic`, so "exactly one of each pair" fails. -/
theorem feature_set_root_tokens_counterexample :
    Feature.PlusSyllabic ∈ feature_set mixedDisegment ∧
    Feature.MinusSyllabic ∈ feature_set mixedDisegment := by
  decide

/-! ## Claim C5 (amended): similarity is a Jaccard quotient, NaN on 0/0 -/

/-- C5 as amended: whenever at least one input slice is non-empty,
`similarity` returns the quotient `|intersection| / |union|` of the two
flattened feature-token sets; on two empty slices the source divides
`0.0 / 0.0`, which is IEEE NaN rather than `1.0`. -/
theorem similarity_jaccard :
    (∀ s1 s2 : List Phoneme, ¬(s1 = [] ∧ s2 = []) →
      similarity s1 s2 =
        some (((gather_features s1 ∩ gather_features s2).card : ℚ) /
              ((gather_features s1 ∪ gather_features s2).card : ℚ))) ∧
    similarity [] [] = none := by
  refine ⟨fun s1 s2 h => ?_, rfl⟩
  unfold similarity
  simp [union_card_ne_zero s1 s2 h]

/-- Witness for C5: a concrete one-phoneme slice against the empty slice. -/
theorem similarity_jaccard_witness :
    ¬(([Phoneme.Monosegment vowelSegA] : List Phoneme) = [] ∧ ([] : List Phoneme) = []) ∧
    similarity [Phoneme.Monosegment vowelSegA] [] =
      some (((gather_features [Phoneme.Monosegment vowelSegA] ∩ gather_features []).card : ℚ) /
            ((gather_features [Phoneme.Monosegment vowelSegA] ∪ gather_features []).card : ℚ)) :=
  ⟨by simp, similarity_jaccard.1 [Phoneme.Monosegment vowelSegA] [] (by simp)⟩

/-- Counterexample to C5 as stated: on two empty slices the division is
`0.0 / 0.0` (IEEE NaN, modelled `none`), not `1.0`. -/
theorem similarity_jaccard_counterexample :
    similarity [] [] = none ∧ similarity [] [] ≠ some 1 := by
  refine ⟨rfl, ?_⟩
  intro h
  simp [similarity, gather_features] at h

/-! ## Parser infrastructure lemmas -/

theorem build_syllables_length (accent : Symbol → Option Phoneme) (multi : Bool) :
    ∀ (l : List (List Symbol)) (ss : List Syllable),
      build_syllables accent multi l = .ok ss → ss.length = l.length := by
  intro l
  induction l with
  | nil =>
      intro ss h
      have h' : (Except.ok ([] : List Syllable) :
        Except WordConstructorError (List Syllable)) = .ok ss := h
      cases h'
      rfl
  | cons syl rest ih =>
      intro ss h
      unfold build_syllables at h
      cases h1 : from_accent_syllable accent multi syl with
      | error e => rw [h1] at h; cases h
      | ok s =>
          rw [h1] at h
          cases h2 : build_syllables accent multi rest with
          | error e => rw [h2] at h; cases h
          | ok ss' =>
              rw [h2] at h
              cases h
              simp [ih ss' h2]

instance instDecEqExcept {ε α : Type} [DecidableEq ε] [DecidableEq α] :
    DecidableEq (Except ε α) := fun a b =>
  match a, b with
  | .error e1, .error e2 =>
      match decEq e1 e2 with
      | isTrue rfl => isTrue rfl
      | isFalse h => isFalse (fun hc => h (Except.error.inj hc))
  | .ok a1, .ok a2 =>
      match decEq a1 a2 with
      | isTrue rfl => isTrue rfl
      | isFalse h => isFalse (fun hc => h (Except.ok.inj hc))
  | .error _, .ok _ => isFalse (fun hc => Except.noConfusion hc)
  | .ok _, .error _ => isFalse (fun hc => Except.noConfusion hc)

theorem from_accent_syllable_stress_none (accent : Symbol → Option Phoneme)
    (syms : List Symbol) (s : Syllable)
    (h : from_accent_syllable accent false syms = .ok s) : s.stress = none := by
  cases syms with
  | nil => exact Except.noConfusion h
  | cons stress_sym rest =>
      simp only [from_accent_syllable] at h
      cases hps : parse_stress stress_sym with
      | none => rw [hps] at h; cases h
      | some st =>
          rw [hps] at h
          cases hloop : build_syl_loop accent rest [] none [] with
          | error e => rw [hloop] at h; cases h
          | ok triple =>
              obtain ⟨onset, nuc, coda⟩ := triple
              rw [hloop] at h
              cases nuc with
              | none => cases h
              | some n => cases h; rfl

theorem build_syllables_stress_none (accent : Symbol → Option Phoneme) :
    ∀ (l : List (List Symbol)) (ss : List Syllable),
      build_syllables accent false l = .ok ss → ∀ s ∈ ss, s.stress = none := by
  intro l
  induction l with
  | nil =>
      intro ss h
      have h' : (Except.ok ([] : List Syllable) :
        Except WordConstructorError (List Syllable)) = .ok ss := h
      cases h'
      intro s hs
      cases hs
  | cons syl rest ih =>
      intro ss h
      unfold build_syllables at h
      cases h1 : from_accent_syllable accent false syl with
      | error e => rw [h1] at h; cases h
      | ok s =>
          rw [h1] at h
          cases h2 : build_syllables accent false rest with
          | error e => rw [h2] at h; cases h
          | ok ss' =>
              rw [h2] at h
              cases h
              intro x hx
              rcases List.mem_cons.1 hx with rfl | hx'
              · exact from_accent_syllable_stress_none accent syl x h1
              · exact ih ss' h2 x hx'

/-! ## Claim C2: single-syllable stress suppression -/

/-- C2: whenever `from_accent` parses a description into a word with
exactly one syllable, that syllable's stress is `None`, whatever stress
marks or digits the description contained. -/
theorem single_syllable_stress_suppressed (accent : Symbol → Option Phoneme)
    (d : List Char) (w : Word)
    (hok : from_accent accent d = .ok w) (hone : w.syls.length = 1) :
    ∀ syl ∈ w.syls, syl.stress = none := by
  simp only [from_accent] at hok
  split at hok
  · cases hok
  · rename_i syls_as_symbols hsplit
    split at hok
    · cases hok
    · rename_i syls hbuild
      cases hok
      have hlen : syls_as_symbols.length = 1 := by
        rw [← build_syllables_length accent _ syls_as_symbols syls hbuild]
        exact hone
      rw [hlen] at hbuild
      have hflag : (decide ((1 : ℕ) > 1)) = false := by decide
      rw [hflag] at hbuild
      exact build_syllables_stress_none accent syls_as_symbols _ hbuild

/-- An accent with a stop `t`, a vowel `a` and a fricative `s`, whose
lookup keys coincide with the stored segment symbols. -/
def cAccent (s : Symbol) : Option Phoneme :=
  if s = ['t'] then some (Phoneme.Monosegment stopSeg)
  else if s = ['a'] then some (Phoneme.Monosegment vowelSegA)
  else if s = ['s'] then some (Phoneme.Monosegment fricativeSeg)
  else none

/-- The word parsed from `"tast"`: one syllable, onset `t`, nucleus `a`,
coda `s t`, no stress. -/
def wTast : Word :=
  ⟨[{ onset := [Phoneme.Monosegment stopSeg]
      nucleus := Phoneme.Monosegment vowelSegA
      coda := [Phoneme.Monosegment fricativeSeg, Phoneme.Monosegment stopSeg]
      stress := none }]⟩

theorem from_accent_tast : from_accent cAccent (str "1tast") = .ok wTast := by
  simp [from_accent, split_word_desc, split_go, is_digit_stress, is_ipa_stress,
    normalize_stress, str, tieBar, rhoticHook, build_syllables, from_accent_syllable,
    parse_stress, build_syl_loop, cAccent, is_vowel, any_segment, stopSeg, vowelSegA,
    fricativeSeg, segBase, wTast]

/-- Witness for C2: `"1tast"` carries an explicit stress digit, parses to
one syllable, and the stress is discarded. -/
theorem single_syllable_stress_suppressed_witness :
    from_accent cAccent (str "1tast") = .ok wTast ∧ wTast.syls.length = 1 ∧
    ∀ syl ∈ wTast.syls, syl.stress = none :=
  ⟨from_accent_tast, rfl,
    single_syllable_stress_suppressed cAccent (str "1tast") wTast from_accent_tast rfl⟩

/-! ## Claim C9 (amended): the empty description error -/

/-- The simp set that evaluates the parser on concrete inputs. -/
theorem from_accent_aa :
    from_accent cAccent (str "aa") =
      .error ⟨str "BadSylStructure: two phonemes in syl: a/a"⟩ := by
  simp [from_accent, split_word_desc, split_go, is_digit_stress, is_ipa_stress,
    normalize_stress, str, tieBar, rhoticHook, build_syllables, from_accent_syllable,
    parse_stress, build_syl_loop, cAccent, is_vowel, any_segment, stopSeg, vowelSegA,
    fricativeSeg, segBase, Phoneme.symbol]

/-- C9 as amended: parsing an empty word-description fails and no `Word`
is returned, but the error carries the message
`"BadSylStructure: empty string"` — the same `BadSylStructure` marker as
the structural errors, not a distinct `EmptyDescription` kind. -/
theorem empty_description_badsyl (accent : Symbol → Option Phoneme) :
    from_accent accent [] = .error ⟨str "BadSylStructure: empty string"⟩ ∧
    (str "BadSylStructure").isPrefixOf (str "BadSylStructure: empty string") = true :=
  ⟨rfl, by decide⟩

/-- Counterexample to C9 as stated: the empty-input error message starts
with the very marker (`BadSylStructure`) that tags bad-syllable-structure
errors (compare the duplicate-nucleus error on `"aa"`), and not with an
`EmptyDescription` marker, so the empty-input failure is not reported
under a kind distinguishable from `BadSyllableStructure`. -/
theorem empty_description_badsyl_counterexample :
    from_accent cAccent [] = .error ⟨str "BadSylStructure: empty string"⟩ ∧
    from_accent cAccent (str "aa") =
      .error ⟨str "BadSylStructure: two phonemes in syl: a/a"⟩ ∧
    (str "BadSylStructure").isPrefixOf (str "BadSylStructure: empty string") = true ∧
    (str "BadSylStructure").isPrefixOf
      (str "BadSylStructure: two phonemes in syl: a/a") = true ∧
    (str "EmptyDescription").isPrefixOf (str "BadSylStructure: empty string") = false :=
  ⟨rfl, from_accent_aa, by decide, by decide, by decide⟩

/-! ## Vowel counting and first-failure lemmas for C3 and C4 -/

/-- The number of symbols of a syllable that the accent resolves to
vowel phonemes. -/
def vowel_count (accent : Symbol → Option Phoneme) (syms : List Symbol) : ℕ :=
  syms.countP (fun s =>
    match accent s with
    | some p => is_vowel p
    | none => false)

theorem isPrefixOf_append {l₁ l₂ : List Char} (rest : List Char)
    (h : l₁.isPrefixOf l₂ = true) : l₁.isPrefixOf (l₂ ++ rest) = true := by
  rw [List.isPrefixOf_iff_prefix] at h ⊢
  exact h.trans (l₂.prefix_append rest)

theorem build_syl_loop_err_badsyl (accent : Symbol → Option Phoneme) :
    ∀ (syms : List Symbol) (onset : List Phoneme) (nuc : Option Phoneme)
      (coda : List Phoneme) (e : WordConstructorError),
      (∀ s ∈ syms, (accent s).isSome = true) →
      build_syl_loop accent syms onset nuc coda = .error e →
      (str "BadSylStructure").isPrefixOf e.msg = true := by
  intro syms
  induction syms with
  | nil => intro onset nuc coda e _ h; exact Except.noConfusion h
  | cons s rest ih =>
      intro onset nuc coda e hres h
      have hres' : ∀ x ∈ rest, (accent x).isSome = true :=
        fun x hx => hres x (by simp [hx])
      cases hacc : accent s with
      | none =>
          have := hres s (by simp)
          rw [hacc] at this
          cases this
      | some p =>
          simp only [build_syl_loop, hacc] at h
          by_cases hv : is_vowel p = true
          · rw [if_pos hv] at h
            cases nuc with
            | none => exact ih _ _ _ e hres' h
            | some q =>
                injection h with h2
                subst h2
                exact isPrefixOf_append _ (isPrefixOf_append _ (isPrefixOf_append _ (by decide)))
          · rw [if_neg hv] at h
            by_cases hn : nuc = none
            · rw [if_pos hn] at h
              exact ih _ _ _ e hres' h
            · rw [if_neg hn] at h
              exact ih _ _ _ e hres' h

theorem build_syl_loop_two_vowels (accent : Symbol → Option Phoneme) :
    ∀ (syms : List Symbol) (onset : List Phoneme) (nuc : Option Phoneme)
      (coda : List Phoneme),
      (∀ s ∈ syms, (accent s).isSome = true) →
      (2 ≤ vowel_count accent syms ∨
        (nuc.isSome = true ∧ 1 ≤ vowel_count accent syms)) →
      ∃ e, build_syl_loop accent syms onset nuc coda = .error e := by
  intro syms
  induction syms with
  | nil =>
      intro onset nuc coda _ hcnt
      exfalso
      have hz : vowel_count accent [] = 0 := rfl
      rcases hcnt with h | ⟨_, h⟩ <;> omega
  | cons s rest ih =>
      intro onset nuc coda hres hcnt
      have hres' : ∀ x ∈ rest, (accent x).isSome = true :=
        fun x hx => hres x (by simp [hx])
      cases hacc : accent s with
      | none =>
          have := hres s (by simp)
          rw [hacc] at this
          cases this
      | some p =>
          have hcount : vowel_count accent (s :: rest) =
              vowel_count accent rest + if is_vowel p then 1 else 0 := by
            simp [vowel_count, List.countP_cons, hacc]
          by_cases hv : is_vowel p = true
          · cases hn : nuc with
            | some q =>
                exact ⟨_, by simp only [build_syl_loop, hacc]; rw [if_pos hv]⟩
            | none =>
                have hrest : 1 ≤ vowel_count accent rest := by
                  rw [hv, if_pos rfl] at hcount
                  rcases hcnt with h | ⟨hsome, _⟩
                  · omega
                  · rw [hn] at hsome; cases hsome
                obtain ⟨e, he⟩ := ih onset (some p) coda hres' (Or.inr ⟨rfl, hrest⟩)
                refine ⟨e, ?_⟩
                simp only [build_syl_loop, hacc]
                rw [if_pos hv]
                exact he
          · have hvf : is_vowel p = false := by
              cases hvp : is_vowel p
              · rfl
              · exact absurd hvp hv
            have hcnt' : 2 ≤ vowel_count accent rest ∨
                (nuc.isSome = true ∧ 1 ≤ vowel_count accent rest) := by
              rw [hvf] at hcount
              simp only [Bool.false_eq_true, if_false, Nat.add_zero] at hcount
              rw [hcount] at hcnt
              exact hcnt
            by_cases hn : nuc = none
            · obtain ⟨e, he⟩ := ih (onset ++ [p]) nuc coda hres' hcnt'
              refine ⟨e, ?_⟩
              simp only [build_syl_loop, hacc]
              rw [if_neg hv, if_pos hn]
              exact he
            · obtain ⟨e, he⟩ := ih onset nuc (coda ++ [p]) hres' hcnt'
              refine ⟨e, ?_⟩
              simp only [build_syl_loop, hacc]
              rw [if_neg hv, if_neg hn]
              exact he

theorem from_accent_syllable_err_badsyl (accent : Symbol → Option Phoneme)
    (multi : Bool) (syms : List Symbol) (e : WordConstructorError)
    (hres : ∀ s ∈ syms.drop 1, (accent s).isSome = true)
    (h : from_accent_syllable accent multi syms = .error e) :
    (str "BadSylStructure").isPrefixOf e.msg = true := by
  cases syms with
  | nil =>
      simp only [from_accent_syllable] at h
      injection h with h2
      subst h2
      decide
  | cons stress_sym rest =>
      simp only [from_accent_syllable] at h
      cases hps : parse_stress stress_sym with
      | none =>
          rw [hps] at h
          injection h with h2
          subst h2
          decide
      | some st =>
          rw [hps] at h
          cases hloop : build_syl_loop accent rest [] none [] with
          | error e2 =>
              rw [hloop] at h
              injection h with h2
              subst h2
              exact build_syl_loop_err_badsyl accent rest [] none [] _ hres hloop
          | ok triple =>
              obtain ⟨onset, nuc, coda⟩ := triple
              rw [hloop] at h
              cases nuc with
              | none =>
                  injection h with h2
                  subst h2
                  decide
              | some n => exact Except.noConfusion h

theorem from_accent_syllable_two_vowels (accent : Symbol → Option Phoneme)
    (multi : Bool) (syms : List Symbol)
    (hres : ∀ s ∈ syms.drop 1, (accent s).isSome = true)
    (htwo : 2 ≤ vowel_count accent (syms.drop 1)) :
    ∃ e, from_accent_syllable accent multi syms = .error e := by
  cases syms with
  | nil =>
      exfalso
      have hz : vowel_count accent ([] : List Symbol) = 0 := rfl
      simp only [List.drop_nil] at htwo
      omega
  | cons stress_sym rest =>
      simp only [List.drop_succ_cons, List.drop_zero] at hres htwo
      cases hps : parse_stress stress_sym with
      | none =>
          exact ⟨⟨str "BadSylStructure: no stress information for syllable"⟩,
            by simp only [from_accent_syllable, hps]⟩
      | some st =>
          obtain ⟨e, he⟩ :=
            build_syl_loop_two_vowels accent rest [] none [] hres (Or.inl htwo)
          exact ⟨e, by simp only [from_accent_syllable, hps, he]⟩

theorem build_syllables_err_badsyl (accent : Symbol → Option Phoneme) (multi : Bool) :
    ∀ (syls : List (List Symbol)) (e : WordConstructorError),
      (∀ syl ∈ syls, ∀ s ∈ syl.drop 1, (accent s).isSome = true) →
      build_syllables accent multi syls = .error e →
      (str "BadSylStructure").isPrefixOf e.msg = true := by
  intro syls
  induction syls with
  | nil => intro e _ h; exact Except.noConfusion h
  | cons syl rest ih =>
      intro e hres h
      unfold build_syllables at h
      cases h1 : from_accent_syllable accent multi syl with
      | error e1 =>
          rw [h1] at h
          injection h with h2
          subst h2
          exact from_accent_syllable_err_badsyl accent multi syl _
            (hres syl (by simp)) h1
      | ok s =>
          rw [h1] at h
          cases h2 : build_syllables accent multi rest with
          | error e2 =>
              rw [h2] at h
              injection h with h3
              subst h3
              exact ih _ (fun x hx => hres x (by simp [hx])) h2
          | ok ss => rw [h2] at h; exact Except.noConfusion h

theorem build_syllables_err_exists (accent : Symbol → Option Phoneme) (multi : Bool) :
    ∀ (syls : List (List Symbol)),
      (∃ syl ∈ syls, ∃ e, from_accent_syllable accent multi syl = .error e) →
      ∃ e, build_syllables accent multi syls = .error e := by
  intro syls
  induction syls with
  | nil => rintro ⟨syl, hmem, _⟩; cases hmem
  | cons syl rest ih =>
      rintro ⟨badsyl, hmem, e, he⟩
      cases h1 : from_accent_syllable accent multi syl with
      | error e1 => exact ⟨e1, by unfold build_syllables; rw [h1]⟩
      | ok s =>
          rcases List.mem_cons.1 hmem with rfl | hmem'
          · rw [h1] at he; cases he
          · obtain ⟨e2, he2⟩ := ih ⟨badsyl, hmem', e, he⟩
            exact ⟨e2, by unfold build_syllables; rw [h1, he2]⟩

/-! ## Claim C3 (amended): duplicate nucleus forces `BadSylStructure` -/

/-- C3 as amended: for a word description whose split succeeds, in which
every non-stress symbol resolves through the accent, and in which some
syllable contains two symbols resolving to vowel phonemes (with no
stress mark or digit between them, since they sit in one split
syllable), `from_accent` returns an error tagged `BadSylStructure` and
no `Word`. -/
theorem two_vowels_in_syllable_badsyl (accent : Symbol → Option Phoneme)
    (d : List Char) (syls : List (List Symbol))
    (hsplit : split_word_desc d = .ok syls)
    (hres : ∀ syl ∈ syls, ∀ s ∈ syl.drop 1, (accent s).isSome = true)
    (htwo : ∃ syl ∈ syls, 2 ≤ vowel_count accent (syl.drop 1)) :
    ∃ e, from_accent accent d = .error e ∧
      (str "BadSylStructure").isPrefixOf e.msg = true := by
  obtain ⟨syl, hmem, hcount⟩ := htwo
  obtain ⟨e, he⟩ := build_syllables_err_exists accent (decide (syls.length > 1)) syls
    ⟨syl, hmem, from_accent_syllable_two_vowels accent _ syl (hres syl hmem) hcount⟩
  refine ⟨e, ?_, build_syllables_err_badsyl accent _ syls e hres he⟩
  simp only [from_accent, hsplit, he]

theorem split_taa : split_word_desc (str "taa") = .ok [[['3'], ['t'], ['a'], ['a']]] := by
  simp [split_word_desc, split_go, is_digit_stress, is_ipa_stress, normalize_stress,
    str, tieBar, rhoticHook]

/-- Witness for C3: `"taa"` puts two resolving vowels in one syllable and
fails with a `BadSylStructure` error. -/
theorem two_vowels_in_syllable_badsyl_witness :
    split_word_desc (str "taa") = .ok [[['3'], ['t'], ['a'], ['a']]] ∧
    (∀ syl ∈ [[['3'], ['t'], ['a'], ['a']]], ∀ s ∈ syl.drop 1,
      (cAccent s).isSome = true) ∧
    2 ≤ vowel_count cAccent [['t'], ['a'], ['a']] ∧
    ∃ e, from_accent cAccent (str "taa") = .error e ∧
      (str "BadSylStructure").isPrefixOf e.msg = true :=
  ⟨split_taa, by decide, by decide,
    two_vowels_in_syllable_badsyl cAccent (str "taa") [[['3'], ['t'], ['a'], ['a']]]
      split_taa (by decide) ⟨[['3'], ['t'], ['a'], ['a']], by simp, by decide⟩⟩

/-- Counterexample to C3 as stated: `"xaa"` contains two symbols that
resolve to vowels inside one syllable with nothing between them, yet
`from_accent` fails with `UnknownSymbol` (for the unresolvable `x`
scanned first), not with `BadSylStructure`. -/
theorem two_vowels_in_syllable_badsyl_counterexample :
    split_word_desc (str "xaa") = .ok [[['3'], ['x'], ['a'], ['a']]] ∧
    cAccent ['a'] = some (Phoneme.Monosegment vowelSegA) ∧
    is_vowel (Phoneme.Monosegment vowelSegA) = true ∧
    2 ≤ vowel_count cAccent [['x'], ['a'], ['a']] ∧
    from_accent cAccent (str "xaa") =
      .error ⟨str "UnknownSymbol: x not recognized in accent"⟩ ∧
    (str "BadSylStructure").isPrefixOf
      (str "UnknownSymbol: x not recognized in accent") = false := by
  refine ⟨?_, by decide, by decide, by decide, ?_, by decide⟩
  · simp [split_word_desc, split_go, is_digit_stress, is_ipa_stress, normalize_stress,
      str, tieBar, rhoticHook]
  · simp [from_accent, split_word_desc, split_go, is_digit_stress, is_ipa_stress,
      normalize_stress, str, tieBar, rhoticHook, build_syllables, from_accent_syllable,
      parse_stress, build_syl_loop, cAccent, is_vowel, any_segment, stopSeg, vowelSegA,
      fricativeSeg, segBase, Phoneme.symbol]


/-! ## Claim C4 (amended): unknown symbols fail with `UnknownSymbol` -/

theorem build_syl_loop_unknown (accent : Symbol → Option Phoneme) :
    ∀ (pre : List Symbol) (u : Symbol) (post : List Symbol)
      (onset : List Phoneme) (nuc : Option Phoneme) (coda : List Phoneme),
      (∀ s ∈ pre, (accent s).isSome = true) →
      accent u = none →
      ((nuc = none ∧ vowel_count accent pre ≤ 1) ∨
        (nuc.isSome = true ∧ vowel_count accent pre = 0)) →
      build_syl_loop accent (pre ++ u :: post) onset nuc coda =
        .error ⟨str "UnknownSymbol: " ++ u ++ str " not recognized in accent"⟩ := by
  intro pre
  induction pre with
  | nil =>
      intro u post onset nuc coda _ hu _
      simp only [List.nil_append, build_syl_loop, hu]
  | cons s pre' ih =>
      intro u post onset nuc coda hres hu hcond
      have hres' : ∀ x ∈ pre', (accent x).isSome = true :=
        fun x hx => hres x (by simp [hx])
      cases hacc : accent s with
      | none =>
          have := hres s (by simp)
          rw [hacc] at this
          cases this
      | some p =>
          have hcount : vowel_count accent (s :: pre') =
              vowel_count accent pre' + if is_vowel p then 1 else 0 := by
            simp [vowel_count, List.countP_cons, hacc]
          simp only [List.cons_append, build_syl_loop, hacc]
          by_cases hv : is_vowel p = true
          · rw [if_pos hv]
            rw [hv, if_pos rfl] at hcount
            cases nuc with
            | some q =>
                exfalso
                rcases hcond with ⟨hn, _⟩ | ⟨_, hz⟩
                · cases hn
                · omega
            | none =>
                rcases hcond with ⟨_, hle⟩ | ⟨hsome, _⟩
                · exact ih u post onset (some p) coda hres' hu
                    (Or.inr ⟨rfl, by omega⟩)
                · cases hsome
          · rw [if_neg hv]
            have hvf : is_vowel p = false := by
              cases hvp : is_vowel p
              · rfl
              · exact absurd hvp hv
            rw [hvf] at hcount
            simp only [Bool.false_eq_true, if_false, Nat.add_zero] at hcount
            by_cases hn : nuc = none
            · rw [if_pos hn]
              refine ih u post (onset ++ [p]) nuc coda hres' hu ?_
              rw [← hcount]
              exact hcond
            · rw [if_neg hn]
              refine ih u post onset nuc (coda ++ [p]) hres' hu ?_
              rw [← hcount]
              exact hcond

theorem build_syllables_pre_ok (accent : Symbol → Option Phoneme) (multi : Bool) :
    ∀ (pre : List (List Symbol)) (syl : List Symbol) (post : List (List Symbol))
      (e : WordConstructorError),
      (∀ x ∈ pre, ∃ y, from_accent_syllable accent multi x = .ok y) →
      from_accent_syllable accent multi syl = .error e →
      build_syllables accent multi (pre ++ syl :: post) = .error e := by
  intro pre
  induction pre with
  | nil =>
      intro syl post e _ he
      simp only [List.nil_append]
      unfold build_syllables
      rw [he]
  | cons x pre' ih =>
      intro syl post e hpre he
      obtain ⟨y, hy⟩ := hpre x (by simp)
      simp only [List.cons_append]
      unfold build_syllables
      rw [hy, ih syl post e (fun z hz => hpre z (by simp [hz])) he]

/-- C4 as amended: a description containing a re-combined symbol that the
accent cannot resolve fails (no `Word` is returned) with an
`UnknownSymbol` error naming that symbol, provided the unknown symbol is
the first failure point of the scan: every syllable before it parses,
its own syllable has valid stress information, and the symbols before it
in that syllable resolve with at most one vowel among them. -/
theorem unknown_symbol_first_failure (accent : Symbol → Option Phoneme)
    (d : List Char) (syls : List (List Symbol))
    (pre : List (List Symbol)) (stress_sym : Symbol) (s1 : List Symbol)
    (u : Symbol) (s2 : List Symbol) (post : List (List Symbol)) (st : Stress)
    (hsplit : split_word_desc d = .ok syls)
    (hsyls : syls = pre ++ (stress_sym :: (s1 ++ u :: s2)) :: post)
    (hpre : ∀ x ∈ pre,
      ∃ y, from_accent_syllable accent (decide (syls.length > 1)) x = .ok y)
    (hstress : parse_stress stress_sym = some st)
    (hres : ∀ s ∈ s1, (accent s).isSome = true)
    (hone : vowel_count accent s1 ≤ 1)
    (hu : accent u = none) :
    from_accent accent d =
      .error ⟨str "UnknownSymbol: " ++ u ++ str " not recognized in accent"⟩ := by
  have hloop := build_syl_loop_unknown accent s1 u s2 [] none [] hres hu
    (Or.inl ⟨rfl, hone⟩)
  have hsylerr : from_accent_syllable accent (decide (syls.length > 1))
      (stress_sym :: (s1 ++ u :: s2)) =
      .error ⟨str "UnknownSymbol: " ++ u ++ str " not recognized in accent"⟩ := by
    simp only [from_accent_syllable, hstress, hloop]
  have hbuild := build_syllables_pre_ok accent (decide (syls.length > 1)) pre
    (stress_sym :: (s1 ++ u :: s2)) post _ hpre hsylerr
  rw [← hsyls] at hbuild
  simp only [from_accent, hsplit, hbuild]

theorem split_tax : split_word_desc (str "tax") = .ok [[['3'], ['t'], ['a'], ['x']]] := by
  simp [split_word_desc, split_go, is_digit_stress, is_ipa_stress, normalize_stress,
    str, tieBar, rhoticHook]

/-- Witness for C4: in `"tax"` the unknown `x` is the first failure and
`from_accent` reports `UnknownSymbol` for it. -/
theorem unknown_symbol_first_failure_witness :
    split_word_desc (str "tax") = .ok [[['3'], ['t'], ['a'], ['x']]] ∧
    parse_stress ['3'] = some Stress.Unstressed ∧
    (∀ s ∈ [['t'], ['a']], (cAccent s).isSome = true) ∧
    vowel_count cAccent [['t'], ['a']] ≤ 1 ∧
    cAccent ['x'] = none ∧
    from_accent cAccent (str "tax") =
      .error ⟨str "UnknownSymbol: " ++ ['x'] ++ str " not recognized in accent"⟩ :=
  ⟨split_tax, rfl, by decide, by decide, rfl,
    unknown_symbol_first_failure cAccent (str "tax") [[['3'], ['t'], ['a'], ['x']]]
      [] ['3'] [['t'], ['a']] ['x'] [] [] Stress.Unstressed
      split_tax rfl (by simp) rfl (by decide) (by decide) rfl⟩

/-- Counterexample to C4 as stated: `"aax"` contains the unknown symbol
`x`, yet `from_accent` fails with a `BadSylStructure` error (the
duplicate nucleus is scanned first), not with `UnknownSymbol`. -/
theorem unknown_symbol_first_failure_counterexample :
    split_word_desc (str "aax") = .ok [[['3'], ['a'], ['a'], ['x']]] ∧
    cAccent ['x'] = none ∧
    from_accent cAccent (str "aax") =
      .error ⟨str "BadSylStructure: two phonemes in syl: a/a"⟩ ∧
    (str "UnknownSymbol").isPrefixOf
      (str "BadSylStructure: two phonemes in syl: a/a") = false := by
  refine ⟨?_, rfl, ?_, by decide⟩
  · simp [split_word_desc, split_go, is_digit_stress, is_ipa_stress, normalize_stress,
      str, tieBar, rhoticHook]
  · simp [from_accent, split_word_desc, split_go, is_digit_stress, is_ipa_stress,
      normalize_stress, str, tieBar, rhoticHook, build_syllables, from_accent_syllable,
      parse_stress, build_syl_loop, cAccent, is_vowel, any_segment, stopSeg, vowelSegA,
      fricativeSeg, segBase, Phoneme.symbol]


/-! ## Claim C1 (amended): round-trip of `Word::symbols` through the parser -/

/-- A segment symbol character that cannot be confused with the
notation: not a stress mark, not a stress digit, not the tie-bar, not
the rhotic hook. -/
def clean_char (c : Char) : Bool :=
  !(is_ipa_stress c || is_digit_stress c || c = tieBar || c = rhoticHook)

/-- All segment symbols of a phoneme are clean. -/
def clean_phoneme : Phoneme → Bool
  | .Monosegment s => clean_char s.symbol
  | .Disegment s1 s2 => clean_char s1.symbol && clean_char s2.symbol

theorem build_syl_loop_ok_shape (accent : Symbol → Option Phoneme) :
    ∀ (syms : List Symbol) (onset : List Phoneme) (nuc : Option Phoneme)
      (coda : List Phoneme) (onset2 : List Phoneme) (nuc2 : Option Phoneme)
      (coda2 : List Phoneme),
      build_syl_loop accent syms onset nuc coda = .ok (onset2, nuc2, coda2) →
      (∀ p ∈ onset, is_vowel p = false) →
      (∀ p ∈ coda, is_vowel p = false) →
      (∀ p, nuc = some p → is_vowel p = true) →
      (∀ p ∈ onset2, is_vowel p = false) ∧ (∀ p ∈ coda2, is_vowel p = false) ∧
        (∀ p, nuc2 = some p → is_vowel p = true) := by
  intro syms
  induction syms with
  | nil =>
      intro onset nuc coda onset2 nuc2 coda2 h ho hc hn
      have h2 : (Except.ok (onset, nuc, coda) :
          Except WordConstructorError (List Phoneme × Option Phoneme × List Phoneme)) =
          .ok (onset2, nuc2, coda2) := h
      injection h2 with h3
      cases h3
      exact ⟨ho, hc, hn⟩
  | cons s rest ih =>
      intro onset nuc coda onset2 nuc2 coda2 h ho hc hn
      simp only [build_syl_loop] at h
      cases hacc : accent s with
      | none => rw [hacc] at h; exact Except.noConfusion h
      | some p =>
          simp only [hacc] at h
          by_cases hv : is_vowel p = true
          · rw [if_pos hv] at h
            cases nuc with
            | none =>
                exact ih onset (some p) coda onset2 nuc2 coda2 h ho hc
                  (fun q hq => by injection hq with hq2; subst hq2; exact hv)
            | some q => exact Except.noConfusion h
          · rw [if_neg hv] at h
            have hvf : is_vowel p = false := by
              cases hvp : is_vowel p
              · rfl
              · exact absurd hvp hv
            by_cases hnn : nuc = none
            · rw [if_pos hnn] at h
              refine ih (onset ++ [p]) nuc coda onset2 nuc2 coda2 h ?_ hc hn
              intro q hq
              rcases List.mem_append.1 hq with hq | hq
              · exact ho q hq
              · rcases List.mem_singleton.1 hq with rfl
                exact hvf
            · rw [if_neg hnn] at h
              refine ih onset nuc (coda ++ [p]) onset2 nuc2 coda2 h ho ?_ hn
              intro q hq
              rcases List.mem_append.1 hq with hq | hq
              · exact hc q hq
              · rcases List.mem_singleton.1 hq with rfl
                exact hvf

theorem from_accent_syllable_ok_shape (accent : Symbol → Option Phoneme)
    (multi : Bool) (syms : List Symbol) (syl : Syllable)
    (h : from_accent_syllable accent multi syms = .ok syl) :
    is_vowel syl.nucleus = true ∧ (∀ p ∈ syl.onset, is_vowel p = false) ∧
      (∀ p ∈ syl.coda, is_vowel p = false) := by
  cases syms with
  | nil => exact Except.noConfusion h
  | cons stress_sym rest =>
      simp only [from_accent_syllable] at h
      cases hps : parse_stress stress_sym with
      | none => rw [hps] at h; exact Except.noConfusion h
      | some st =>
          rw [hps] at h
          cases hloop : build_syl_loop accent rest [] none [] with
          | error e => rw [hloop] at h; exact Except.noConfusion h
          | ok triple =>
              obtain ⟨onset2, nuc2, coda2⟩ := triple
              rw [hloop] at h
              cases nuc2 with
              | none => exact Except.noConfusion h
              | some n =>
                  injection h with h2
                  obtain ⟨ho, hc, hn⟩ := build_syl_loop_ok_shape accent rest [] none []
                    onset2 (some n) coda2 hloop (by simp) (by simp)
                    (fun q hq => by exact Option.noConfusion hq)
                  subst h2
                  exact ⟨hn n rfl, ho, hc⟩

theorem build_syllables_ok_shape (accent : Symbol → Option Phoneme) (multi : Bool) :
    ∀ (l : List (List Symbol)) (ss : List Syllable),
      build_syllables accent multi l = .ok ss →
      ∀ syl ∈ ss, is_vowel syl.nucleus = true ∧
        (∀ p ∈ syl.onset, is_vowel p = false) ∧ (∀ p ∈ syl.coda, is_vowel p = false) := by
  intro l
  induction l with
  | nil =>
      intro ss h
      have h2 : (Except.ok ([] : List Syllable) :
        Except WordConstructorError (List Syllable)) = .ok ss := h
      injection h2 with h3
      subst h3
      intro syl hmem
      cases hmem
  | cons x rest ih =>
      intro ss h
      unfold build_syllables at h
      cases h1 : from_accent_syllable accent multi x with
      | error e => rw [h1] at h; exact Except.noConfusion h
      | ok s =>
          rw [h1] at h
          cases h2 : build_syllables accent multi rest with
          | error e => rw [h2] at h; exact Except.noConfusion h
          | ok ss2 =>
              rw [h2] at h
              injection h with h3
              subst h3
              intro syl hmem
              rcases List.mem_cons.1 hmem with rfl | hmem2
              · exact from_accent_syllable_ok_shape accent multi x syl h1
              · exact ih ss2 h2 syl hmem2

theorem from_accent_ok_shape (accent : Symbol → Option Phoneme)
    (d : List Char) (w : Word) (h : from_accent accent d = .ok w) :
    ∀ syl ∈ w.syls, is_vowel syl.nucleus = true ∧
      (∀ p ∈ syl.onset, is_vowel p = false) ∧ (∀ p ∈ syl.coda, is_vowel p = false) := by
  simp only [from_accent] at h
  split at h
  · exact Except.noConfusion h
  · rename_i syls_as_symbols hsplit
    split at h
    · exact Except.noConfusion h
    · rename_i syls hbuild
      injection h with h2
      subst h2
      exact build_syllables_ok_shape accent _ syls_as_symbols syls hbuild

theorem parse_stress_normalize (c : Char) :
    parse_stress [normalize_stress c] =
      some (if c = 'ˈ' then Stress.Stressed
            else if c = 'ˌ' then Stress.SecondaryStress else Stress.Unstressed) := by
  unfold normalize_stress
  by_cases h1 : c = 'ˈ'
  · rw [if_pos h1, if_pos h1]; rfl
  · rw [if_neg h1, if_neg h1]
    by_cases h2 : c = 'ˌ'
    · rw [if_pos h2, if_pos h2]; rfl
    · rw [if_neg h2, if_neg h2]; rfl

theorem build_syl_loop_consonants_onset (accent : Symbol → Option Phoneme) :
    ∀ (ps : List Phoneme) (rest : List Symbol) (onset coda : List Phoneme),
      (∀ p ∈ ps, accent (Phoneme.symbol p) = some p ∧ is_vowel p = false) →
      build_syl_loop accent (ps.map Phoneme.symbol ++ rest) onset none coda =
        build_syl_loop accent rest (onset ++ ps) none coda := by
  intro ps
  induction ps with
  | nil => intro rest onset coda _; simp
  | cons p ps2 ih =>
      intro rest onset coda hps
      obtain ⟨hacc, hv⟩ := hps p (by simp)
      simp only [List.map_cons, List.cons_append, build_syl_loop, hacc, List.append_eq]
      rw [if_neg (by simp [hv]), if_pos (by trivial),
        ih rest (onset ++ [p]) coda (fun q hq => hps q (by simp [hq])),
        List.append_assoc]
      rfl

theorem build_syl_loop_consonants_coda (accent : Symbol → Option Phoneme)
    (n : Phoneme) :
    ∀ (ps : List Phoneme) (rest : List Symbol) (onset coda : List Phoneme),
      (∀ p ∈ ps, accent (Phoneme.symbol p) = some p ∧ is_vowel p = false) →
      build_syl_loop accent (ps.map Phoneme.symbol ++ rest) onset (some n) coda =
        build_syl_loop accent rest onset (some n) (coda ++ ps) := by
  intro ps
  induction ps with
  | nil => intro rest onset coda _; simp
  | cons p ps2 ih =>
      intro rest onset coda hps
      obtain ⟨hacc, hv⟩ := hps p (by simp)
      simp only [List.map_cons, List.cons_append, build_syl_loop, hacc, List.append_eq]
      rw [if_neg (by simp [hv]), if_neg (by simp),
        ih rest onset (coda ++ [p]) (fun q hq => hps q (by simp [hq])),
        List.append_assoc]
      rfl

theorem build_syl_loop_rebuild (accent : Symbol → Option Phoneme) (syl : Syllable)
    (hacc : ∀ p ∈ syl.phonemes, accent (Phoneme.symbol p) = some p)
    (hnuc : is_vowel syl.nucleus = true)
    (honset : ∀ p ∈ syl.onset, is_vowel p = false)
    (hcoda : ∀ p ∈ syl.coda, is_vowel p = false) :
    build_syl_loop accent (syl.phonemes.map Phoneme.symbol) [] none [] =
      .ok (syl.onset, some syl.nucleus, syl.coda) := by
  have hacc_onset : ∀ p ∈ syl.onset,
      accent (Phoneme.symbol p) = some p ∧ is_vowel p = false :=
    fun p hp => ⟨hacc p (by simp [Syllable.phonemes, hp]), honset p hp⟩
  have hacc_coda : ∀ p ∈ syl.coda,
      accent (Phoneme.symbol p) = some p ∧ is_vowel p = false :=
    fun p hp => ⟨hacc p (by simp [Syllable.phonemes, hp]), hcoda p hp⟩
  have haccn : accent (Phoneme.symbol syl.nucleus) = some syl.nucleus :=
    hacc _ (by simp [Syllable.phonemes])
  have hmap : syl.phonemes.map Phoneme.symbol =
      syl.onset.map Phoneme.symbol ++
        (Phoneme.symbol syl.nucleus :: syl.coda.map Phoneme.symbol) := by
    simp [Syllable.phonemes]
  rw [hmap, build_syl_loop_consonants_onset accent syl.onset _ [] [] hacc_onset,
    List.nil_append]
  simp only [build_syl_loop, haccn]
  rw [if_pos hnuc]
  have h2 := build_syl_loop_consonants_coda accent syl.nucleus syl.coda [] syl.onset []
    hacc_coda
  rw [List.append_nil] at h2
  rw [h2]
  rfl

theorem from_accent_syllable_rebuild (accent : Symbol → Option Phoneme)
    (multi : Bool) (digit : Char) (st : Stress) (syl : Syllable)
    (hd : parse_stress [digit] = some st)
    (hacc : ∀ p ∈ syl.phonemes, accent (Phoneme.symbol p) = some p)
    (hnuc : is_vowel syl.nucleus = true)
    (honset : ∀ p ∈ syl.onset, is_vowel p = false)
    (hcoda : ∀ p ∈ syl.coda, is_vowel p = false) :
    from_accent_syllable accent multi ([digit] :: syl.phonemes.map Phoneme.symbol) =
      .ok { onset := syl.onset, nucleus := syl.nucleus, coda := syl.coda,
            stress := if multi then some st else none } := by
  simp only [from_accent_syllable, hd,
    build_syl_loop_rebuild accent syl hacc hnuc honset hcoda]

theorem build_syllables_rebuild (accent : Symbol → Option Phoneme) (multi : Bool) :
    ∀ (items : List (Char × Syllable)),
      (∀ x ∈ items, (parse_stress [x.1]).isSome = true) →
      (∀ x ∈ items, ∀ p ∈ x.2.phonemes, accent (Phoneme.symbol p) = some p) →
      (∀ x ∈ items, is_vowel x.2.nucleus = true ∧
        (∀ p ∈ x.2.onset, is_vowel p = false) ∧ (∀ p ∈ x.2.coda, is_vowel p = false)) →
      ∃ ss, build_syllables accent multi
          (items.map (fun x => [x.1] :: x.2.phonemes.map Phoneme.symbol)) = .ok ss ∧
        ss.length = items.length ∧
        ss.map Syllable.phonemes = items.map (fun x => x.2.phonemes) := by
  intro items
  induction items with
  | nil => exact fun _ _ _ => ⟨[], rfl, rfl, rfl⟩
  | cons x items2 ih =>
      intro hst hacc hshape
      obtain ⟨st, hstx⟩ := Option.isSome_iff_exists.1 (hst x (by simp))
      obtain ⟨hnu, hon, hco⟩ := hshape x (by simp)
      obtain ⟨ss2, hss2, hlen2, hphon2⟩ := ih (fun y hy => hst y (by simp [hy]))
        (fun y hy => hacc y (by simp [hy])) (fun y hy => hshape y (by simp [hy]))
      refine ⟨{ onset := x.2.onset, nucleus := x.2.nucleus, coda := x.2.coda,
                stress := if multi then some st else none } :: ss2, ?_,
        by simp [hlen2], ?_⟩
      · simp only [List.map_cons]
        unfold build_syllables
        rw [from_accent_syllable_rebuild accent multi x.1 st x.2 hstx
          (hacc x (by simp)) hnu hon hco, hss2]
      · simp [List.map_cons, hphon2, Syllable.phonemes]

theorem clean_char_spec (c : Char) (h : clean_char c = true) :
    is_ipa_stress c = false ∧ is_digit_stress c = false ∧ c ≠ tieBar ∧ c ≠ rhoticHook := by
  simp [clean_char] at h
  tauto

theorem phoneme_symbol_ne_nil (p : Phoneme) : Phoneme.symbol p ≠ [] := by
  cases p <;> simp [Phoneme.symbol]

theorem flatten_symbols_eq_nil {ps : List Phoneme}
    (h : (ps.map Phoneme.symbol).flatten = []) : ps = [] := by
  cases ps with
  | nil => rfl
  | cons p ps2 =>
      exfalso
      cases p <;> simp [Phoneme.symbol] at h

theorem flatten_symbols_head (ps : List Phoneme) (rest : List Char)
    (hclean : ∀ p ∈ ps, clean_phoneme p = true)
    (hrest : ∀ c ∈ rest.head?, c ≠ tieBar ∧ c ≠ rhoticHook) :
    ∀ c ∈ ((ps.map Phoneme.symbol).flatten ++ rest).head?, c ≠ tieBar ∧ c ≠ rhoticHook := by
  cases ps with
  | nil => simpa using hrest
  | cons p ps2 =>
      intro c hc
      cases p with
      | Monosegment s =>
          have hcl : clean_char s.symbol = true :=
            hclean (Phoneme.Monosegment s) (by simp)
          have hs := clean_char_spec s.symbol hcl
          simp [Phoneme.symbol] at hc
          subst hc
          exact ⟨hs.2.2.1, hs.2.2.2⟩
      | Disegment s1 s2 =>
          have hcl : (clean_char s1.symbol && clean_char s2.symbol) = true :=
            hclean (Phoneme.Disegment s1 s2) (by simp)
          have hs := clean_char_spec s1.symbol (Bool.and_eq_true .. ▸ hcl).1
          simp [Phoneme.symbol] at hc
          subst hc
          exact ⟨hs.2.2.1, hs.2.2.2⟩

theorem split_go_tokens :
    ∀ (ps : List Phoneme) (rest : List Char) (cur : List Symbol)
      (acc : List (List Symbol)),
      (∀ p ∈ ps, clean_phoneme p = true) →
      (∀ c ∈ rest.head?, c ≠ tieBar ∧ c ≠ rhoticHook) →
      split_go ((ps.map Phoneme.symbol).flatten ++ rest) cur acc =
        split_go rest (cur ++ ps.map Phoneme.symbol) acc := by
  intro ps
  induction ps with
  | nil => intro rest cur acc _ _; simp
  | cons p ps2 ih =>
      intro rest cur acc hclean hrest
      have hclean2 : ∀ q ∈ ps2, clean_phoneme q = true :=
        fun q hq => hclean q (by simp [hq])
      have hhead := flatten_symbols_head ps2 rest hclean2 hrest
      cases p with
      | Monosegment s =>
          have hcl : clean_char s.symbol = true :=
            hclean (Phoneme.Monosegment s) (by simp)
          obtain ⟨hipa, hdig, _, _⟩ := clean_char_spec s.symbol hcl
          have hstream0 :
              ((Phoneme.Monosegment s :: ps2).map Phoneme.symbol).flatten ++ rest =
              s.symbol :: ((ps2.map Phoneme.symbol).flatten ++ rest) := by
            simp [Phoneme.symbol]
          rw [hstream0]
          cases hstream : (ps2.map Phoneme.symbol).flatten ++ rest with
          | nil =>
              obtain ⟨hf, hr⟩ := List.append_eq_nil.1 hstream
              have hps2 : ps2 = [] := flatten_symbols_eq_nil hf
              subst hps2
              subst hr
              simp [split_go, hipa, hdig, Phoneme.symbol]
          | cons c2 l2 =>
              have hc2 := hhead c2 (by rw [hstream]; rfl)
              rw [split_go.eq_def]
              simp only [hipa, hdig, Bool.or_self, Bool.false_eq_true, if_false,
                Bool.false_or]
              rw [if_neg hc2.1, if_neg hc2.2, ← hstream,
                ih rest (cur ++ [[s.symbol]]) acc hclean2 hrest]
              simp [Phoneme.symbol]
      | Disegment s1 s2 =>
          have hcl : (clean_char s1.symbol && clean_char s2.symbol) = true :=
            hclean (Phoneme.Disegment s1 s2) (by simp)
          obtain ⟨hipa, hdig, _, _⟩ :=
            clean_char_spec s1.symbol (Bool.and_eq_true .. ▸ hcl).1
          have hstream0 :
              ((Phoneme.Disegment s1 s2 :: ps2).map Phoneme.symbol).flatten ++ rest =
              s1.symbol :: tieBar :: s2.symbol ::
                ((ps2.map Phoneme.symbol).flatten ++ rest) := by
            simp [Phoneme.symbol]
          rw [hstream0, split_go.eq_def]
          simp only [hipa, hdig, Bool.or_self, Bool.false_eq_true, if_false,
            Bool.false_or, List.singleton_append]
          rw [ih rest (cur ++ [[s1.symbol, tieBar, s2.symbol]]) acc hclean2 hrest]
          simp [Phoneme.symbol]

/-- The characters that `Word::symbols` appends for every syllable after
the first: its separator followed by its phoneme symbols. -/
def render_tail (syls : List Syllable) : List Char :=
  (syls.map (fun syl =>
    ((syl.stress.getD Stress.Unstressed).symbol.getD '.') :: syl.symbols)).flatten

theorem syllable_symbols_def (syl : Syllable) :
    syl.symbols = (syl.phonemes.map Phoneme.symbol).flatten := rfl

theorem word_symbols_def (syl0 : Syllable) (rest_syls : List Syllable) :
    Word.symbols ⟨syl0 :: rest_syls⟩ =
      ((if (syl0.stress.bind Stress.symbol).getD '.' ≠ '.'
        then [(syl0.stress.bind Stress.symbol).getD '.'] else []) ++ syl0.symbols) ++
        render_tail rest_syls := rfl

theorem sep_char_props (o : Option Stress) :
    is_ipa_stress ((o.getD Stress.Unstressed).symbol.getD '.') = true ∧
    is_digit_stress ((o.getD Stress.Unstressed).symbol.getD '.') = false ∧
    ((o.getD Stress.Unstressed).symbol.getD '.') ≠ tieBar ∧
    ((o.getD Stress.Unstressed).symbol.getD '.') ≠ rhoticHook := by
  rcases o with _ | st
  · decide
  · cases st <;> decide

theorem first_sep_char_cases (o : Option Stress) :
    (o.bind Stress.symbol).getD '.' = 'ˈ' ∨ (o.bind Stress.symbol).getD '.' = 'ˌ' ∨
      (o.bind Stress.symbol).getD '.' = '.' := by
  rcases o with _ | st
  · right; right; rfl
  · cases st <;> simp [Stress.symbol, Option.bind]

theorem render_tail_head (syls : List Syllable) :
    ∀ c ∈ (render_tail syls).head?, c ≠ tieBar ∧ c ≠ rhoticHook := by
  cases syls with
  | nil => intro c hc; cases hc
  | cons syl rest =>
      intro c hc
      have hsep := sep_char_props syl.stress
      simp [render_tail] at hc
      subst hc
      exact ⟨hsep.2.2.1, hsep.2.2.2⟩

theorem syllable_symbols_cons (syl : Syllable)
    (hclean : ∀ p ∈ syl.phonemes, clean_phoneme p = true) :
    ∃ c l, syl.symbols = c :: l ∧ is_ipa_stress c = false ∧
      is_digit_stress c = false ∧ c ≠ tieBar ∧ c ≠ rhoticHook := by
  cases hph : syl.phonemes with
  | nil =>
      exfalso
      simp [Syllable.phonemes] at hph
  | cons p rest =>
      have hp : clean_phoneme p = true := by
        refine hclean p ?_
        rw [hph]
        exact List.mem_cons_self _ _
      cases p with
      | Monosegment s =>
          obtain ⟨h1, h2, h3, h4⟩ := clean_char_spec s.symbol hp
          refine ⟨s.symbol, (rest.map Phoneme.symbol).flatten, ?_, h1, h2, h3, h4⟩
          rw [syllable_symbols_def, hph]
          simp [Phoneme.symbol]
      | Disegment s1 s2 =>
          have hb : (clean_char s1.symbol && clean_char s2.symbol) = true := hp
          obtain ⟨h1, h2, h3, h4⟩ :=
            clean_char_spec s1.symbol (Bool.and_eq_true .. ▸ hb).1
          refine ⟨s1.symbol, tieBar :: s2.symbol :: (rest.map Phoneme.symbol).flatten,
            ?_, h1, h2, h3, h4⟩
          rw [syllable_symbols_def, hph]
          simp [Phoneme.symbol]

theorem split_go_tail :
    ∀ (syls : List Syllable) (cur : List Symbol) (acc : List (List Symbol)),
      (∀ syl ∈ syls, ∀ p ∈ syl.phonemes, clean_phoneme p = true) →
      split_go (render_tail syls) cur acc =
        .ok ((acc ++ [cur]) ++ syls.map (fun syl =>
          [normalize_stress ((syl.stress.getD Stress.Unstressed).symbol.getD '.')] ::
            syl.phonemes.map Phoneme.symbol)) := by
  intro syls
  induction syls with
  | nil => intro cur acc _; simp [render_tail, split_go]
  | cons syl syls2 ih =>
      intro cur acc hclean
      have hcl : ∀ p ∈ syl.phonemes, clean_phoneme p = true := hclean syl (by simp)
      have hcl2 : ∀ y ∈ syls2, ∀ p ∈ y.phonemes, clean_phoneme p = true :=
        fun y hy => hclean y (by simp [hy])
      obtain ⟨c0, l0, hsym, hc0ipa, hc0dig, hc0tie, hc0hook⟩ :=
        syllable_symbols_cons syl hcl
      obtain ⟨hsipa, hsdig, _, _⟩ := sep_char_props syl.stress
      have hrt : render_tail (syl :: syls2) =
          ((syl.stress.getD Stress.Unstressed).symbol.getD '.') ::
            (syl.symbols ++ render_tail syls2) := by
        simp [render_tail]
      have hstream : syl.symbols ++ render_tail syls2 =
          c0 :: (l0 ++ render_tail syls2) := by rw [hsym]; rfl
      rw [hrt, hstream, split_go.eq_def]
      simp only [hsipa, hsdig, Bool.true_or, if_true, Bool.false_eq_true, if_false,
        List.nil_append]
      rw [if_neg hc0tie, if_neg hc0hook, ← hstream, syllable_symbols_def,
        split_go_tokens syl.phonemes (render_tail syls2) _ _ hcl (render_tail_head syls2),
        ih _ _ hcl2]
      simp

theorem split_go_word_tail (syl0 : Syllable) (rest_syls : List Syllable) (d : Char)
    (hclean0 : ∀ p ∈ syl0.phonemes, clean_phoneme p = true)
    (hcleanr : ∀ syl ∈ rest_syls, ∀ p ∈ syl.phonemes, clean_phoneme p = true) :
    split_go (syl0.symbols ++ render_tail rest_syls) [[d]] [] =
      .ok (([d] :: syl0.phonemes.map Phoneme.symbol) ::
        rest_syls.map (fun syl =>
          [normalize_stress ((syl.stress.getD Stress.Unstressed).symbol.getD '.')] ::
            syl.phonemes.map Phoneme.symbol)) := by
  rw [syllable_symbols_def,
    split_go_tokens syl0.phonemes (render_tail rest_syls) _ _ hclean0
      (render_tail_head rest_syls),
    split_go_tail rest_syls _ _ hcleanr]
  simp

theorem split_word_desc_cons (c : Char) (l : List Char) :
    split_word_desc (c :: l) =
      if is_digit_stress c then split_go l [[c]] []
      else if is_ipa_stress c then split_go l [[normalize_stress c]] []
      else split_go (c :: l) [[('3' : Char)]] [] := rfl

theorem split_word_symbols (syl0 : Syllable) (rest_syls : List Syllable)
    (hclean0 : ∀ p ∈ syl0.phonemes, clean_phoneme p = true)
    (hcleanr : ∀ syl ∈ rest_syls, ∀ p ∈ syl.phonemes, clean_phoneme p = true) :
    split_word_desc (Word.symbols ⟨syl0 :: rest_syls⟩) =
      .ok (([normalize_stress ((syl0.stress.bind Stress.symbol).getD '.')] ::
             syl0.phonemes.map Phoneme.symbol) ::
           rest_syls.map (fun syl =>
             [normalize_stress ((syl.stress.getD Stress.Unstressed).symbol.getD '.')] ::
               syl.phonemes.map Phoneme.symbol)) := by
  rw [word_symbols_def]
  rcases first_sep_char_cases syl0.stress with hsep | hsep | hsep
  · rw [hsep, if_pos (by decide)]
    simp only [List.cons_append, List.nil_append]
    rw [split_word_desc_cons, if_neg (by decide), if_pos (by decide),
      split_go_word_tail syl0 rest_syls _ hclean0 hcleanr]
  · rw [hsep, if_pos (by decide)]
    simp only [List.cons_append, List.nil_append]
    rw [split_word_desc_cons, if_neg (by decide), if_pos (by decide),
      split_go_word_tail syl0 rest_syls _ hclean0 hcleanr]
  · rw [hsep, if_neg (by decide)]
    simp only [List.nil_append]
    obtain ⟨c0, l0, hsym, hc0ipa, hc0dig, hc0tie, hc0hook⟩ :=
      syllable_symbols_cons syl0 hclean0
    have hstream : syl0.symbols ++ render_tail rest_syls =
        c0 :: (l0 ++ render_tail rest_syls) := by rw [hsym]; rfl
    rw [hstream, split_word_desc_cons, if_neg (by simp [hc0dig]),
      if_neg (by simp [hc0ipa]), ← hstream,
      split_go_word_tail syl0 rest_syls ('3' : Char) hclean0 hcleanr]
    rfl

/-- C1 as amended: if `from_accent` accepts `d` as a word `w` of at least
two syllables, and the accent is symbol-faithful on the phonemes of `w`
(looking up a phoneme's own rendered symbol returns that phoneme) with
clean segment symbols (no stress marks, digits, tie-bars or rhotic hooks),
then parsing `w.symbols()` again succeeds and yields a word with the
same number of syllables and the same ordered phoneme sequence. -/
theorem round_trip (accent : Symbol → Option Phoneme) (d : List Char) (w : Word)
    (hok : from_accent accent d = .ok w)
    (hlen : 2 ≤ w.syls.length)
    (hacc : ∀ p ∈ w.phonemes, accent (Phoneme.symbol p) = some p)
    (hclean : ∀ p ∈ w.phonemes, clean_phoneme p = true) :
    ∃ w2, from_accent accent (Word.symbols w) = .ok w2 ∧
      w2.syls.length = w.syls.length ∧ Word.phonemes w2 = Word.phonemes w := by
  obtain ⟨syls⟩ := w
  cases syls with
  | nil => simp at hlen
  | cons syl0 rest =>
      have hshape := from_accent_ok_shape accent d ⟨syl0 :: rest⟩ hok
      have hmemw : ∀ syl ∈ syl0 :: rest, ∀ p ∈ syl.phonemes,
          p ∈ Word.phonemes ⟨syl0 :: rest⟩ := by
        intro syl hsyl p hp
        simp only [Word.phonemes, List.mem_flatten]
        exact ⟨syl.phonemes, List.mem_map_of_mem _ hsyl, hp⟩
      have hclean0 : ∀ p ∈ syl0.phonemes, clean_phoneme p = true :=
        fun p hp => hclean p (hmemw syl0 (by simp) p hp)
      have hcleanr : ∀ syl ∈ rest, ∀ p ∈ syl.phonemes, clean_phoneme p = true :=
        fun syl hsyl p hp => hclean p (hmemw syl (by simp [hsyl]) p hp)
      have hsplit := split_word_symbols syl0 rest hclean0 hcleanr
      have hlist :
          (([normalize_stress ((syl0.stress.bind Stress.symbol).getD '.')] ::
              syl0.phonemes.map Phoneme.symbol) ::
            rest.map (fun syl =>
              [normalize_stress ((syl.stress.getD Stress.Unstressed).symbol.getD '.')] ::
                syl.phonemes.map Phoneme.symbol)) =
          ((normalize_stress ((syl0.stress.bind Stress.symbol).getD '.'), syl0) ::
            rest.map (fun syl =>
              (normalize_stress ((syl.stress.getD Stress.Unstressed).symbol.getD '.'),
                syl))).map
            (fun x => [x.1] :: x.2.phonemes.map Phoneme.symbol) := by
        simp [List.map_map, Function.comp]
      rw [hlist] at hsplit
      obtain ⟨ss, hss, hlen2, hphon⟩ := build_syllables_rebuild accent
        (decide ((((normalize_stress ((syl0.stress.bind Stress.symbol).getD '.'), syl0) ::
          rest.map (fun syl =>
            (normalize_stress ((syl.stress.getD Stress.Unstressed).symbol.getD '.'),
              syl))).map (fun x => [x.1] :: x.2.phonemes.map Phoneme.symbol)).length > 1))
        ((normalize_stress ((syl0.stress.bind Stress.symbol).getD '.'), syl0) ::
          rest.map (fun syl =>
            (normalize_stress ((syl.stress.getD Stress.Unstressed).symbol.getD '.'),
              syl)))
        (by
          rintro x hx
          rcases List.mem_cons.1 hx with rfl | hx2
          · simp [parse_stress_normalize]
          · obtain ⟨syl, _, rfl⟩ := List.mem_map.1 hx2
            simp [parse_stress_normalize])
        (by
          rintro x hx p hp
          rcases List.mem_cons.1 hx with rfl | hx2
          · exact hacc p (hmemw syl0 (by simp) p hp)
          · obtain ⟨syl, hsyl, rfl⟩ := List.mem_map.1 hx2
            exact hacc p (hmemw syl (by simp [hsyl]) p hp))
        (by
          rintro x hx
          rcases List.mem_cons.1 hx with rfl | hx2
          · exact hshape syl0 (by simp)
          · obtain ⟨syl, hsyl, rfl⟩ := List.mem_map.1 hx2
            exact hshape syl (by simp [hsyl]))
      refine ⟨⟨ss⟩, ?_, ?_, ?_⟩
      · simp only [from_accent, hsplit, hss]
      · simp only [hlen2, List.length_cons, List.length_map]
      · simp only [Word.phonemes]
        rw [hphon]
        simp [List.map_map, Function.comp_def]

/-- The word parsed from `"ta.ta"` against `cAccent`. -/
def wTaTa : Word :=
  ⟨[{ onset := [Phoneme.Monosegment stopSeg]
      nucleus := Phoneme.Monosegment vowelSegA
      coda := []
      stress := some Stress.Unstressed },
    { onset := [Phoneme.Monosegment stopSeg]
      nucleus := Phoneme.Monosegment vowelSegA
      coda := []
      stress := some Stress.Unstressed }]⟩

theorem from_accent_tata : from_accent cAccent (str "ta.ta") = .ok wTaTa := by
  simp [from_accent, split_word_desc, split_go, is_digit_stress, is_ipa_stress,
    normalize_stress, str, tieBar, rhoticHook, build_syllables, from_accent_syllable,
    parse_stress, build_syl_loop, cAccent, is_vowel, any_segment, stopSeg, vowelSegA,
    fricativeSeg, segBase, wTaTa]

/-- Witness for C1: `"ta.ta"` over a symbol-faithful accent with clean
symbols round-trips through `Word::symbols`. -/
theorem round_trip_witness :
    from_accent cAccent (str "ta.ta") = .ok wTaTa ∧
    2 ≤ wTaTa.syls.length ∧
    (∀ p ∈ wTaTa.phonemes, cAccent (Phoneme.symbol p) = some p) ∧
    (∀ p ∈ wTaTa.phonemes, clean_phoneme p = true) ∧
    ∃ w2, from_accent cAccent (Word.symbols wTaTa) = .ok w2 ∧
      w2.syls.length = wTaTa.syls.length ∧ Word.phonemes w2 = Word.phonemes wTaTa :=
  ⟨from_accent_tata, by decide, by decide, by decide,
    round_trip cAccent (str "ta.ta") wTaTa from_accent_tata (by decide)
      (by decide) (by decide)⟩

/-- A +syllabic segment whose rendered symbol `c` differs from its
lookup key `b`. -/
def vowelSegC : Segment :=
  { segBase with
      root_features := { segBase.root_features with syllabic := BinaryFeature.Marked }
      symbol := 'c' }

/-- An accent that resolves the key `b` to a vowel phoneme whose own
symbol is `c` (which the accent does not resolve). -/
def accentRename (s : Symbol) : Option Phoneme :=
  if s = ['b'] then some (Phoneme.Monosegment vowelSegC) else none

/-- The word parsed from `"b.b"` against `accentRename`. -/
def wBB : Word :=
  ⟨[{ onset := []
      nucleus := Phoneme.Monosegment vowelSegC
      coda := []
      stress := some Stress.Unstressed },
    { onset := []
      nucleus := Phoneme.Monosegment vowelSegC
      coda := []
      stress := some Stress.Unstressed }]⟩

theorem from_accent_bb : from_accent accentRename (str "b.b") = .ok wBB := by
  simp [from_accent, split_word_desc, split_go, is_digit_stress, is_ipa_stress,
    normalize_stress, str, tieBar, rhoticHook, build_syllables, from_accent_syllable,
    parse_stress, build_syl_loop, accentRename, is_vowel, any_segment, vowelSegC,
    segBase, wBB]

/-- Counterexample to C1 as stated: `"b.b"` is accepted as a two-syllable
word, but its rendering `"c.c"` does not re-parse at all — the accent
maps the key `b` to a phoneme whose rendered symbol is `c`, which the
accent does not know.  So the round-trip fails without further
assumptions on the accent. -/
theorem round_trip_counterexample :
    from_accent accentRename (str "b.b") = .ok wBB ∧
    2 ≤ wBB.syls.length ∧
    Word.symbols wBB = str "c.c" ∧
    from_accent accentRename (Word.symbols wBB) =
      .error ⟨str "UnknownSymbol: c not recognized in accent"⟩ := by
  refine ⟨from_accent_bb, by decide, by decide, ?_⟩
  have hsym : Word.symbols wBB = str "c.c" := by decide
  rw [hsym]
  simp [from_accent, split_word_desc, split_go, is_digit_stress, is_ipa_stress,
    normalize_stress, str, tieBar, rhoticHook, build_syllables, from_accent_syllable,
    parse_stress, build_syl_loop, accentRename, is_vowel, any_segment, vowelSegC,
    segBase]

end Sound
